import Mathlib

/-!
Shallow embedding of the manifest-driven validation orchestrator of the
rsBot repository, covering `.github/scripts/ci_checkout_retry.py`,
`.github/scripts/demo_smoke_runner.py`,
`.github/scripts/live_run_unified_runner.py` and
`.github/scripts/ci_helper_parallel_runner.py`.

Python machine-level details are modelled as follows: Python `int` is `Int`
(arbitrary precision in both), Python `str` is `String`, Python lists are
`List`, `None`-able values are `Option`, and functions that raise exceptions
return `Except String`.  String primitives (`strip`, `lower`, `split`,
ordering) are re-implemented over `String.data` so that they evaluate inside
the kernel.
-/

/-- Models the character class removed by Python `str.strip()` with no
arguments (ASCII whitespace; the rare non-ASCII whitespace code points are
outside the model). -/
def pyIsSpace (c : Char) : Bool :=
  c = ' ' || c = '\t' || c = '\n' || c = '\r' || c.toNat = 11 || c.toNat = 12

/-- Models Python `str.strip()` with no arguments. -/
def pyStrip (s : String) : String :=
  ⟨((s.data.dropWhile pyIsSpace).reverse.dropWhile pyIsSpace).reverse⟩

/-- Models Python `str.lower()` (ASCII case mapping, which covers every
token the scripts compare). -/
def pyLower (s : String) : String :=
  ⟨s.data.map Char.toLower⟩

/-- Splits a character list at every occurrence of the separator, keeping
empty pieces, exactly as Python `str.split(sep)` does. -/
def splitCharList (sep : Char) : List Char → List (List Char)
  | [] => [[]]
  | c :: rest =>
      match splitCharList sep rest with
      | [] => [[]]
      | piece :: pieces =>
          if c = sep then [] :: piece :: pieces else (c :: piece) :: pieces

/-- Models Python `raw.split(sep)` for a single-character separator. -/
def pySplit (s : String) (sep : Char) : List String :=
  (splitCharList sep s.data).map (fun cs => ⟨cs⟩)

/-- Boolean total order on character lists modelling Python string
comparison (code-point lexicographic). -/
def charListLe : List Char → List Char → Bool
  | [], _ => true
  | _ :: _, [] => false
  | a :: as, b :: bs =>
      if a < b then true else if a = b then charListLe as bs else false

/-- Python string ordering as a relation on `String`. -/
def strLe (a b : String) : Prop := charListLe a.data b.data = true

instance : DecidableRel strLe := fun a b =>
  inferInstanceAs (Decidable (charListLe a.data b.data = true))

/-- Boolean strict order on character lists modelling Python string `<`
(code-point lexicographic). -/
def charListLt : List Char → List Char → Bool
  | [], [] => false
  | [], _ :: _ => true
  | _ :: _, [] => false
  | a :: as, b :: bs =>
      if a < b then true else if a = b then charListLt as bs else false

/-- Boolean total order on lists of strings modelling Python tuple
comparison — the order `pathlib` uses between paths, which compares the
component tuples part by part (each part by string `<`). -/
def strListLe : List String → List String → Bool
  | [], _ => true
  | _ :: _, [] => false
  | a :: as, b :: bs =>
      if charListLt a.data b.data then true
      else if a = b then strListLe as bs else false

namespace CiCheckoutRetry

/-- Embeds `ALLOWED_OUTCOMES` from `ci_checkout_retry.py` (membership is the
only operation the script performs on it). -/
def ALLOWED_OUTCOMES : List String :=
  ["success", "failure", "skipped", "cancelled", "unknown"]

/-- Embeds the frozen dataclass `CheckoutRetryPolicy`. -/
structure CheckoutRetryPolicy where
  max_attempts : Int
  base_delay_seconds : Int
  cap_delay_seconds : Int
  max_total_delay_seconds : Int
deriving DecidableEq

/-- Embeds the frozen dataclass `CheckoutRetryReport`. -/
structure CheckoutRetryReport where
  policy : CheckoutRetryPolicy
  outcomes : List String
  retry_delays_seconds : List Int
  planned_total_delay_seconds : Int
  actual_total_delay_seconds : Int
  success_attempt : Option Nat
  status : String
  mode : String
deriving DecidableEq

/-- Embeds `compute_retry_delays`: the Python loop runs `retry_index` over
`range(1, max_attempts)` and appends `min(base * 2 ** (retry_index - 1),
cap)`; here `i = retry_index - 1` runs over `range (max_attempts - 1)`
(`Int.toNat` yields the empty range when `max_attempts ≤ 1`, as in Python). -/
def compute_retry_delays (policy : CheckoutRetryPolicy) : List Int :=
  (List.range (policy.max_attempts - 1).toNat).map
    (fun i => min (policy.base_delay_seconds * 2 ^ i) policy.cap_delay_seconds)

/-- Embeds the `next((index + 1 for index, outcome in enumerate(outcomes)
if outcome == "success"), None)` expression of `build_report`: the 1-indexed
position of the first `"success"` outcome. -/
def firstSuccess : List String → Option Nat
  | [] => none
  | o :: rest =>
      if o = "success" then some 1 else (firstSuccess rest).map (· + 1)

/-- Embeds `build_report` from `ci_checkout_retry.py`. -/
def build_report (policy : CheckoutRetryPolicy) (outcomes : List String) :
    CheckoutRetryReport :=
  let retry_delays := compute_retry_delays policy
  let planned_total_delay := retry_delays.sum
  match firstSuccess outcomes with
  | none =>
      { policy := policy
        outcomes := outcomes
        retry_delays_seconds := retry_delays
        planned_total_delay_seconds := planned_total_delay
        actual_total_delay_seconds := planned_total_delay
        success_attempt := none
        status := "failure"
        mode := "checkout_retries_exhausted" }
  | some k =>
      { policy := policy
        outcomes := outcomes
        retry_delays_seconds := retry_delays
        planned_total_delay_seconds := planned_total_delay
        actual_total_delay_seconds := (retry_delays.take (k - 1)).sum
        success_attempt := some k
        status := "success"
        mode := if k = 1 then "first_attempt_success" else "resolved_after_retry" }

/-- Embeds `normalize_outcomes`: split on commas, strip and lowercase the
non-blank entries, reject lists longer than `max_attempts` or containing an
unknown token, and right-pad with `"skipped"`. -/
def normalize_outcomes (raw : String) (max_attempts : Int) :
    Except String (List String) :=
  let outcomes := (pySplit raw ',').filterMap (fun entry =>
    let t := pyStrip entry
    if t = "" then none else some (pyLower t))
  if (outcomes.length : Int) > max_attempts then
    .error "checkout outcomes length exceeds --max-attempts"
  else if outcomes.all (fun o => ALLOWED_OUTCOMES.contains o) then
    .ok (outcomes ++ List.replicate (max_attempts.toNat - outcomes.length) "skipped")
  else
    .error "unsupported checkout outcome"

/-- Embeds the pure decision path of `main` in `ci_checkout_retry.py`: the
five argument validations, outcome normalization (or the `--dry-run`
padding), `build_report`, and the planned-delay budget check, which raises
before any summary or output is rendered.  An `Except.error` models the
uncaught `ValueError`. -/
def checkout_retry_main (max_attempts base_delay_seconds cap_delay_seconds
    max_total_delay_seconds : Int) (outcomes_raw : String) (dry_run : Bool) :
    Except String CheckoutRetryReport :=
  if max_attempts < 1 then .error "--max-attempts must be >= 1"
  else if base_delay_seconds < 0 then .error "--base-delay-seconds must be >= 0"
  else if cap_delay_seconds < 0 then .error "--cap-delay-seconds must be >= 0"
  else if cap_delay_seconds < base_delay_seconds then
    .error "--cap-delay-seconds must be >= --base-delay-seconds"
  else if max_total_delay_seconds < 0 then
    .error "--max-total-delay-seconds must be >= 0"
  else
    let policy : CheckoutRetryPolicy :=
      ⟨max_attempts, base_delay_seconds, cap_delay_seconds, max_total_delay_seconds⟩
    let outcomesE : Except String (List String) :=
      if dry_run then .ok (List.replicate max_attempts.toNat "skipped")
      else normalize_outcomes outcomes_raw max_attempts
    match outcomesE with
    | .error e => .error e
    | .ok outcomes =>
        let report := build_report policy outcomes
        if report.planned_total_delay_seconds > policy.max_total_delay_seconds then
          .error "planned total retry delay exceeds budget"
        else .ok report

end CiCheckoutRetry

/-- Minimal JSON value model for the manifests the runners load.  Numbers
are restricted to integers (every number in these manifests is an
integer); Python `bool` — which `isinstance(_, int)` accepts and which
compares equal to `0`/`1` — is kept as a separate constructor and handled
by `pyEqInt` / `pyAsInt`. -/
inductive Json where
  | null
  | bool (b : Bool)
  | num (n : Int)
  | str (s : String)
  | arr (items : List Json)
  | obj (fields : List (String × Json))

/-- Field lookup on a parsed JSON object, modelling Python `dict.get`:
`json.loads` keeps the last occurrence of a duplicated key, so the search
prefers later bindings. -/
def getField (fields : List (String × Json)) (key : String) : Option Json :=
  match fields with
  | [] => none
  | (k, v) :: rest =>
      match getField rest key with
      | some v2 => some v2
      | none => if k = key then some v else none

/-- Models the Python comparison `value == n` between a possibly-missing
JSON value and an `int` literal: `None` and non-numbers compare unequal,
`bool` compares as `0`/`1`. -/
def pyEqInt (v : Option Json) (n : Int) : Bool :=
  match v with
  | some (Json.num m) => m = n
  | some (Json.bool b) => (if b then (1 : Int) else 0) = n
  | _ => false

/-- Models `isinstance(v, int)` plus conversion: Python `bool` is a
subtype of `int`. -/
def pyAsInt (v : Json) : Option Int :=
  match v with
  | Json.num m => some m
  | Json.bool b => some (if b then 1 else 0)
  | _ => none

namespace DemoSmokeRunner

/-- Embeds `DEMO_SMOKE_SCHEMA_VERSION` from `demo_smoke_runner.py`. -/
def DEMO_SMOKE_SCHEMA_VERSION : Int := 1

/-- Embeds the frozen dataclass `SmokeCommand`. -/
structure SmokeCommand where
  name : String
  args : List String
  expected_exit_code : Int
  stdout_contains : Option String
  stderr_contains : Option String
deriving DecidableEq

/-- Embeds the `args` validation loop of `load_manifest`: every entry must
be a string with non-blank strip, and is appended unstripped. -/
def parseSmokeArgs : List Json → Except String (List String)
  | [] => .ok []
  | arg :: rest =>
      match arg with
      | Json.str s =>
          if pyStrip s = "" then .error "commands args entries must be non-empty strings"
          else
            match parseSmokeArgs rest with
            | .error e => .error e
            | .ok tail => .ok (s :: tail)
      | _ => .error "commands args entries must be non-empty strings"

/-- Embeds the optional `stdout_contains` / `stderr_contains` validation of
`load_manifest`: absent or `null` yields `none`, a non-blank string is
stripped, anything else is an error. -/
def parseOptionalSubstring (v : Option Json) (fieldError : String) :
    Except String (Option String) :=
  match v with
  | none => .ok none
  | some Json.null => .ok none
  | some (Json.str s) =>
      if pyStrip s = "" then .error fieldError else .ok (some (pyStrip s))
  | some _ => .error fieldError

/-- Embeds the per-command validation of `load_manifest` in
`demo_smoke_runner.py` (the `commands[{index}]` positions interpolated into
the Python error messages are dropped; only which check fails matters). -/
def parseSmokeCommand (command : Json) : Except String SmokeCommand :=
  match command with
  | Json.obj fields =>
      match getField fields "name" with
      | some (Json.str name) =>
          if pyStrip name = "" then .error "commands name must be a non-empty string"
          else
            match getField fields "args" with
            | some (Json.arr args) =>
                if args.isEmpty then .error "commands args must be a non-empty array"
                else
                  let eec := getField fields "expected_exit_code"
                  match (match eec with
                         | none => some (0 : Int)
                         | some v => pyAsInt v) with
                  | none => .error "expected_exit_code must be a non-negative integer"
                  | some code =>
                      if code < 0 then
                        .error "expected_exit_code must be a non-negative integer"
                      else
                        match parseOptionalSubstring (getField fields "stdout_contains")
                            "stdout_contains must be a non-empty string when set" with
                        | .error e => .error e
                        | .ok stdout_contains =>
                            match parseOptionalSubstring (getField fields "stderr_contains")
                                "stderr_contains must be a non-empty string when set" with
                            | .error e => .error e
                            | .ok stderr_contains =>
                                match parseSmokeArgs args with
                                | .error e => .error e
                                | .ok parsed_args =>
                                    .ok { name := pyStrip name
                                          args := parsed_args
                                          expected_exit_code := code
                                          stdout_contains := stdout_contains
                                          stderr_contains := stderr_contains }
            | _ => .error "commands args must be a non-empty array"
      | _ => .error "commands name must be a non-empty string"
  | _ => .error "commands entries must be objects"

/-- Embeds the command list traversal of `load_manifest` (stops at the
first invalid entry, like the Python `for` loop raising). -/
def parseSmokeCommands : List Json → Except String (List SmokeCommand)
  | [] => .ok []
  | command :: rest =>
      match parseSmokeCommand command with
      | .error e => .error e
      | .ok parsed =>
          match parseSmokeCommands rest with
          | .error e => .error e
          | .ok tail => .ok (parsed :: tail)

/-- Embeds `load_manifest` from `demo_smoke_runner.py` (the JSON value is
the already-parsed file content).  Note the source performs no
duplicate-name check on commands. -/
def load_manifest (raw : Json) : Except String (List SmokeCommand) :=
  match raw with
  | Json.obj fields =>
      if pyEqInt (getField fields "schema_version") DEMO_SMOKE_SCHEMA_VERSION then
        match getField fields "commands" with
        | some (Json.arr commands) =>
            if commands.isEmpty then .error "manifest commands must be a non-empty array"
            else parseSmokeCommands commands
        | _ => .error "manifest commands must be a non-empty array"
      else .error "unsupported demo smoke manifest schema_version"
  | _ => .error "manifest must be a JSON object"

/-- A concrete command-form manifest carrying two units that share the
name `"x"` and are otherwise valid. -/
def dupNameManifest : Json :=
  Json.obj
    [("schema_version", Json.num 1),
     ("commands", Json.arr
       [Json.obj [("name", Json.str "x"), ("args", Json.arr [Json.str "run"])],
        Json.obj [("name", Json.str "x"), ("args", Json.arr [Json.str "run"])]])]

/-- Models the observable outcome of `subprocess.run` for one command:
exit code plus full captured streams. -/
structure ExecOutcome where
  returncode : Int
  stdout : String
  stderr : String
deriving DecidableEq

/-- Substring test over character lists, modelling Python `sub in hay`. -/
def listContainsSub (hay sub : List Char) : Bool :=
  hay.tails.any (fun t => sub.isPrefixOf t)

/-- Models Python `sub in hay` for strings. -/
def pyContains (hay sub : String) : Bool :=
  listContainsSub hay.data sub.data

/-- Embeds the `expectation_failures` accumulation of `run_commands`: exit
code mismatch, then missing stdout substring, then missing stderr substring
(the interpolated values in the Python messages are dropped; only which
expectations failed matters). -/
def expectationFailures (command : SmokeCommand) (completed : ExecOutcome) :
    List String :=
  (if completed.returncode ≠ command.expected_exit_code then
    ["exit-code-mismatch"] else []) ++
  (match command.stdout_contains with
   | some s => if pyContains completed.stdout s then [] else ["stdout-missing-substring"]
   | none => []) ++
  (match command.stderr_contains with
   | some s => if pyContains completed.stderr s then [] else ["stderr-missing-substring"]
   | none => [])

/-- Embeds `SmokeCommandResult` (the log-file paths and wall-clock duration
of the Python dataclass are outside the model). -/
structure SmokeCommandResult where
  name : String
  args : List String
  returncode : Int
  expected_exit_code : Int
  stdout_contains : Option String
  stderr_contains : Option String
  expectation_failures : List String
deriving DecidableEq

/-- Embeds the `succeeded` property of `SmokeCommandResult`. -/
def SmokeCommandResult.succeeded (r : SmokeCommandResult) : Bool :=
  r.expectation_failures.isEmpty

/-- One iteration body of `run_commands`: execute the command (execution
is abstracted by the oracle `exec`) and record the result. -/
def run_command (exec : SmokeCommand → ExecOutcome) (command : SmokeCommand) :
    SmokeCommandResult :=
  let completed := exec command
  { name := command.name
    args := command.args
    returncode := completed.returncode
    expected_exit_code := command.expected_exit_code
    stdout_contains := command.stdout_contains
    stderr_contains := command.stderr_contains
    expectation_failures := expectationFailures command completed }

/-- Embeds the `run_commands` loop: results are appended in manifest
order and, when a command fails with `keep_going` unset, the loop breaks
immediately after recording that failure. -/
def runCommandsLoop (exec : SmokeCommand → ExecOutcome) (keep_going : Bool) :
    List SmokeCommand → List SmokeCommandResult
  | [] => []
  | command :: rest =>
      let result := run_command exec command
      if result.succeeded then result :: runCommandsLoop exec keep_going rest
      else if keep_going then result :: runCommandsLoop exec keep_going rest
      else [result]

/-- Embeds `SmokeRunReport`. -/
structure SmokeRunReport where
  total : Nat
  passed : Nat
  failed : Nat
  results : List SmokeCommandResult
deriving DecidableEq

/-- Embeds `run_commands` from `demo_smoke_runner.py`: run the loop, then
`total = len(results)`, `passed = #succeeded`, `failed = total - passed`. -/
def run_commands (exec : SmokeCommand → ExecOutcome)
    (commands : List SmokeCommand) (keep_going : Bool) : SmokeRunReport :=
  let results := runCommandsLoop exec keep_going commands
  let passed := results.countP (fun r => r.succeeded)
  { total := results.length
    passed := passed
    failed := results.length - passed
    results := results }

/-- Follows the spec wording for fail-fast reporting: the per-command
results in manifest order, cut immediately after the first failing
command (later units absent, not marked failed).  Stated separately from
`run_commands` so the orchestration loop can be compared against it. -/
def specFailFastResults : List SmokeCommandResult → List SmokeCommandResult
  | [] => []
  | r :: rest => if r.succeeded then r :: specFailFastResults rest else [r]

/-- A two-unit manifest entry used by the concrete fail-fast example. -/
def demoCmd (nm : String) : SmokeCommand :=
  { name := nm, args := ["run"], expected_exit_code := 0
    stdout_contains := none, stderr_contains := none }

/-- Oracle under which unit `u1` exits 1 (fails) and every other unit
exits 0 (passes). -/
def execU1FailU2Pass : SmokeCommand → ExecOutcome :=
  fun c => if c.name = "u1" then ⟨1, "", ""⟩ else ⟨0, "", ""⟩

end DemoSmokeRunner

namespace LiveRunUnifiedRunner

/-- Embeds `SURFACE_MANIFEST_SCHEMA_VERSION` from
`live_run_unified_runner.py`. -/
def SURFACE_MANIFEST_SCHEMA_VERSION : Int := 1

/-- Embeds the frozen dataclass `SurfaceSpec`. -/
structure SurfaceSpec where
  surface_id : String
  script : String
  artifact_roots : List String
deriving DecidableEq

/-- Embeds the `artifact_roots` validation loop of `load_surface_manifest`:
every entry must be a string with non-blank strip and is appended
stripped. -/
def parseArtifactRoots : List Json → Except String (List String)
  | [] => .ok []
  | root :: rest =>
      match root with
      | Json.str s =>
          if pyStrip s = "" then
            .error "artifact_roots entries must be non-empty strings"
          else
            match parseArtifactRoots rest with
            | .error e => .error e
            | .ok tail => .ok (pyStrip s :: tail)
      | _ => .error "artifact_roots entries must be non-empty strings"

/-- Embeds the surface-entry loop of `load_surface_manifest`, threading the
`seen_ids` set that rejects duplicate surface ids. -/
def parseSurfaces : List Json → List String → Except String (List SurfaceSpec)
  | [], _ => .ok []
  | entry :: rest, seen_ids =>
      match entry with
      | Json.obj fields =>
          match getField fields "id" with
          | some (Json.str surface_id) =>
              if pyStrip surface_id = "" then
                .error "surfaces id must be a non-empty string"
              else
                let normalized_id := pyStrip surface_id
                if normalized_id ∈ seen_ids then
                  .error "surface manifest contains duplicate id"
                else
                  match getField fields "script" with
                  | some (Json.str script) =>
                      if pyStrip script = "" then
                        .error "surfaces script must be a non-empty string"
                      else
                        match getField fields "artifact_roots" with
                        | some (Json.arr artifact_roots) =>
                            if artifact_roots.isEmpty then
                              .error "surfaces artifact_roots must be a non-empty array"
                            else
                              match parseArtifactRoots artifact_roots with
                              | .error e => .error e
                              | .ok parsed_roots =>
                                  match parseSurfaces rest (normalized_id :: seen_ids) with
                                  | .error e => .error e
                                  | .ok tail =>
                                      .ok ({ surface_id := normalized_id
                                             script := pyStrip script
                                             artifact_roots := parsed_roots } :: tail)
                        | _ => .error "surfaces artifact_roots must be a non-empty array"
                  | _ => .error "surfaces script must be a non-empty string"
          | _ => .error "surfaces id must be a non-empty string"
      | _ => .error "surfaces entries must be objects"

/-- Embeds `load_surface_manifest` from `live_run_unified_runner.py` (the
JSON value is the already-parsed file content). -/
def load_surface_manifest (raw : Json) : Except String (List SurfaceSpec) :=
  match raw with
  | Json.obj fields =>
      if pyEqInt (getField fields "schema_version") SURFACE_MANIFEST_SCHEMA_VERSION then
        match getField fields "surfaces" with
        | some (Json.arr surfaces) =>
            if surfaces.isEmpty then
              .error "surface manifest surfaces must be a non-empty array"
            else parseSurfaces surfaces []
        | _ => .error "surface manifest surfaces must be a non-empty array"
      else .error "unsupported live-run surface manifest schema_version"
  | _ => .error "surface manifest must be a JSON object"

/-- A concrete surface-form manifest whose two surfaces share the id
`"x"` and are otherwise valid. -/
def dupIdSurfaceManifest : Json :=
  Json.obj
    [("schema_version", Json.num 1),
     ("surfaces", Json.arr
       [Json.obj
          [("id", Json.str "x"), ("script", Json.str "a.sh"),
           ("artifact_roots", Json.arr [Json.str "r"])],
        Json.obj
          [("id", Json.str "x"), ("script", Json.str "b.sh"),
           ("artifact_roots", Json.arr [Json.str "r"])]])]

/-- Embeds the `--timeout-seconds` handling of `main` in
`live_run_unified_runner.py`: negative values raise a `ValueError` (before
any surface executes), zero leaves timeout forwarding disabled (`None`),
and positive values are forwarded. -/
def validateTimeoutSeconds (timeout_seconds : Int) :
    Except String (Option Int) :=
  if timeout_seconds < 0 then .error "--timeout-seconds must be >= 0"
  else if timeout_seconds > 0 then .ok (some timeout_seconds)
  else .ok none

/-- One entry of the per-unit `artifacts` list: relative path, byte size
and content digest, exactly the dictionary built by
`copy_surface_artifacts`. -/
structure ArtifactEntry where
  relative_path : String
  bytes : Nat
  sha256 : String
deriving DecidableEq

/-- Embeds the modelled subset of the `SurfaceRunResult` dataclass (log
paths, duration and command line are outside the model). -/
structure SurfaceRunResultM where
  surface_id : String
  status : String
  exit_code : Int
  artifacts : List ArtifactEntry
  missing_artifact_roots : List String
  diagnostics : List String
deriving DecidableEq

/-- Embeds the diagnostics accumulation of `run_surface`: non-zero exit
code, missing artifact roots (sorted, comma-joined in the source; the
joined list text is elided), and a successful run that copied zero
artifacts. -/
def surfaceDiagnostics (returncode : Int) (missing_roots : List String)
    (artifacts : List ArtifactEntry) : List String :=
  (if returncode ≠ 0 then ["surface script exited with non-zero code"] else []) ++
  (if missing_roots.isEmpty then [] else ["missing expected artifact roots"]) ++
  (if returncode = 0 && artifacts.isEmpty then
    ["surface run produced no copied artifacts"] else [])

/-- Embeds the result construction of `run_surface`: the process exit code
and the artifact-collection outcome (both abstracted as inputs, since they
come from the child process and the filesystem) determine status and
diagnostics; `status = "passed"` exactly when the exit code is zero. -/
def run_surface_result (spec : SurfaceSpec) (returncode : Int)
    (artifacts : List ArtifactEntry) (missing_roots : List String) :
    SurfaceRunResultM :=
  { surface_id := spec.surface_id
    status := if returncode = 0 then "passed" else "failed"
    exit_code := returncode
    artifacts := artifacts
    missing_artifact_roots := missing_roots
    diagnostics := surfaceDiagnostics returncode missing_roots artifacts }

/-- A modelled POSIX filesystem: the finite collection of regular files,
each an absolute path (list of name components) paired with its byte
content.  Directories exist implicitly as proper prefixes of file paths;
symlinks and the `..` collapsing performed by `Path.resolve` are outside
the model. -/
abbrev FS := List (List String × List Nat)

/-- Models `Path.is_file()`. -/
def fsIsFile (fs : FS) (p : List String) : Bool :=
  fs.any (fun e => e.1 == p)

/-- Models `Path.is_dir()`: some regular file lives strictly below `p`. -/
def fsIsDir (fs : FS) (p : List String) : Bool :=
  fs.any (fun e => p.isPrefixOf e.1 && !(e.1 == p))

/-- Models `Path.exists()`. -/
def fsExists (fs : FS) (p : List String) : Bool :=
  fsIsFile fs p || fsIsDir fs p

/-- Reads the content of the regular file at `p` (first matching entry). -/
def fsLookup (fs : FS) (p : List String) : Option (List Nat) :=
  match fs with
  | [] => none
  | e :: rest => if e.1 = p then some e.2 else fsLookup rest p

/-- Models `shutil.copy2(source, destination)` writing `destination`:
any previous file there is overwritten. -/
def fsWriteFile (fs : FS) (p : List String) (c : List Nat) : FS :=
  fs.filter (fun e => !(e.1 == p)) ++ [(p, c)]

/-- Models `shutil.rmtree(p)`: every file at or below `p` disappears. -/
def fsRemoveTree (fs : FS) (p : List String) : FS :=
  fs.filter (fun e => !(p.isPrefixOf e.1))

/-- The relocated copies `shutil.copytree(src, dst)` creates: every file
`src ++ rest` yields a duplicate at `dst ++ rest`. -/
def treeMap (fs : FS) (src dst : List String) : FS :=
  fs.filterMap (fun e =>
    if src.isPrefixOf e.1 then some (dst ++ e.1.drop src.length, e.2)
    else none)

/-- Models `shutil.copytree(src, dst)` (the source tree is left in
place). -/
def fsCopyTree (fs : FS) (src dst : List String) : FS :=
  fs ++ treeMap fs src dst

/-- Is the character an absolute-path marker. -/
def pathIsAbs (raw : String) : Bool :=
  match raw.data with
  | c :: _ => c = '/'
  | [] => false

/-- Models `PurePosixPath` parsing of a path string into components:
split on `/`, dropping empty components (`//`, leading and trailing
slashes) and the `.` components the parser removes (`..` is kept;
`Path.resolve`'s collapsing of it is outside the model). -/
def splitPath (raw : String) : List String :=
  (pySplit raw '/').filter (fun s => s ≠ "" && s ≠ ".")

/-- Embeds `resolve_path` from `live_run_unified_runner.py`: absolute
inputs stand alone, relative ones are joined onto the root. -/
def resolve_path (root : List String) (raw : String) : List String :=
  if pathIsAbs raw then splitPath raw else root ++ splitPath raw

/-- Models Python `str.strip("/")`. -/
def pyStripSlashes (s : String) : String :=
  ⟨((s.data.dropWhile (· = '/')).reverse.dropWhile (· = '/')).reverse⟩

/-- Embeds `clean_relative_label`: strip whitespace, turn backslashes into
slashes, drop a leading `./`, strip slashes, defaulting to `"root"`. -/
def clean_relative_label (raw : String) : String :=
  let label : String := ⟨(pyStrip raw).data.map (fun c => if c = '\\' then '/' else c)⟩
  let label : String :=
    match label.data with
    | '.' :: '/' :: rest => ⟨rest⟩
    | _ => label
  let label := pyStripSlashes label
  if label = "" then "root" else label

/-- The copy destination of one artifact root:
`artifacts_dir / clean_relative_label(root)` (the `/` operator appends
each component of the label). -/
def rootDestination (artifacts_dir : List String) (root : String) :
    List String :=
  artifacts_dir ++ splitPath (clean_relative_label root)

/-- Embeds the body of the copy loop of `copy_surface_artifacts` for one
declared artifact root: an absent root is only recorded as missing
(`true`); a file root is copied with `copy2`; a directory root is copied
with `copytree` after `rmtree` of an existing destination. -/
def copyOneRoot (repo_root artifacts_dir : List String) (fs : FS)
    (root : String) : FS × Bool :=
  let source := resolve_path repo_root root
  if fsExists fs source = false then (fs, true)
  else
    let destination := rootDestination artifacts_dir root
    if fsIsFile fs source then
      (fsWriteFile fs destination ((fsLookup fs source).getD []), false)
    else
      let fs1 := if fsExists fs destination then fsRemoveTree fs destination
        else fs
      (fsCopyTree fs1 source destination, false)

/-- Embeds the copy loop of `copy_surface_artifacts` over all declared
artifact roots, accumulating the `missing_roots` list in loop order. -/
def copyRootsLoop (repo_root artifacts_dir : List String) (fs : FS) :
    List String → FS × List String
  | [] => (fs, [])
  | root :: rest =>
      let step := copyOneRoot repo_root artifacts_dir fs root
      let recur := copyRootsLoop repo_root artifacts_dir step.1 rest
      (recur.1, if step.2 then root :: recur.2 else recur.2)

/-- Models the 1 MiB chunked read loop of `file_sha256`: the hash state
(the bytes fed so far) starts empty and each iteration feeds
`handle.read(1024 * 1024)` until the read comes back empty.  The `fuel`
argument only bounds the iteration count for structural recursion; with
`fuel ≥ remaining.length` it never runs out, and the fallback branch
still feeds the leftover bytes. -/
def sha256ReadLoop (fuel : Nat) (digest_state remaining : List Nat) :
    List Nat :=
  match fuel, remaining with
  | _, [] => digest_state
  | 0, rem => digest_state ++ rem
  | fuel + 1, rem =>
      sha256ReadLoop fuel (digest_state ++ rem.take 1048576)
        (rem.drop 1048576)

/-- Embeds `file_sha256`, parameterized by the digest function `hash`
that models `hashlib.sha256(...).hexdigest()` on the accumulated byte
stream (the SHA-256 compression function itself is the external
library). -/
def file_sha256 (hash : List Nat → String) (content : List Nat) : String :=
  hash (sha256ReadLoop content.length [] content)

/-- Joins path components with `/`, as `PurePosixPath.as_posix` renders
a relative path and as `sorted(...)` compares paths. -/
def joinPath : List String → String
  | [] => ""
  | [x] => x
  | x :: rest => x ++ "/" ++ joinPath rest

/-- The `sorted(artifacts_dir.rglob("*"))` order: `pathlib` (CPython
3.11) orders `Path` objects by their component tuple, each component
compared as a string. -/
def entryLe (a b : List String × List Nat) : Prop :=
  strListLe a.1 b.1 = true

instance : DecidableRel entryLe := fun a b =>
  inferInstanceAs (Decidable (strListLe a.1 b.1 = true))

/-- Is `p` strictly below the directory `dir`. -/
def underDir (dir p : List String) : Bool :=
  dir.isPrefixOf p && !(p == dir)

/-- Embeds the reporting pass of `copy_surface_artifacts`: walk the
regular files below `surface_output_dir / "artifacts"` in sorted path
order and record relative path (to `surface_output_dir`), byte size and
content digest for each. -/
def listArtifacts (hash : List Nat → String)
    (surface_output_dir : List String) (fs : FS) : List ArtifactEntry :=
  let artifacts_dir := surface_output_dir ++ ["artifacts"]
  let files := fs.filter (fun e => underDir artifacts_dir e.1)
  (List.insertionSort entryLe files).map (fun e =>
    { relative_path := joinPath (e.1.drop surface_output_dir.length)
      bytes := e.2.length
      sha256 := file_sha256 hash e.2 })

/-- Embeds `copy_surface_artifacts`: run the copy loop, then report the
artifacts found below the destination tree together with the missing
roots. -/
def copy_surface_artifacts (hash : List Nat → String)
    (repo_root surface_output_dir : List String)
    (artifact_roots : List String) (fs : FS) :
    FS × List ArtifactEntry × List String :=
  let artifacts_dir := surface_output_dir ++ ["artifacts"]
  let outcome := copyRootsLoop repo_root artifacts_dir fs artifact_roots
  (outcome.1, listArtifacts hash surface_output_dir outcome.1, outcome.2)

/-- Wellformedness of a modelled filesystem: file paths are pairwise
distinct and every path component is a plain name (non-empty,
slash-free). -/
def FSWF (fs : FS) : Prop :=
  (fs.map Prod.fst).Nodup ∧
  ∀ e ∈ fs, ∀ c ∈ e.1, c ≠ "" ∧ '/' ∉ c.data

instance (fs : FS) : Decidable (FSWF fs) := by
  unfold FSWF
  infer_instance

/-- Embeds the aggregation in `main` of `live_run_unified_runner.py`:
`passed = #results with status "passed"`, `failed = total - passed`. -/
def passedSurfaces (results : List SurfaceRunResultM) : Nat :=
  results.countP (fun r => r.status == "passed")

/-- Embeds `overall_status = "passed" if failed == 0 else "failed"`. -/
def overallStatus (results : List SurfaceRunResultM) : String :=
  if results.length - passedSurfaces results = 0 then "passed" else "failed"

/-- Embeds the process exit code of `main`:
`0 if failed == 0 else 1`. -/
def mainExitCode (results : List SurfaceRunResultM) : Int :=
  if results.length - passedSurfaces results = 0 then 0 else 1

end LiveRunUnifiedRunner

namespace CiHelperParallelRunner

/-- Embeds the frozen dataclass `ModuleResult` from
`ci_helper_parallel_runner.py`. -/
structure ModuleResult where
  path : String
  return_code : Int
  duration_ms : Nat
  stdout : String
  stderr : String
deriving DecidableEq

/-- The observable outcome of `subprocess.run([sys.executable, module])`
for one unittest module (execution is abstracted as an oracle). -/
structure ModuleExecOutcome where
  return_code : Int
  duration_ms : Nat
  stdout : String
  stderr : String
deriving DecidableEq

/-- Embeds `run_module`: run one module and record its path, exit code,
duration and captured streams. -/
def run_module (exec : String → ModuleExecOutcome)
    (module_path : String) : ModuleResult :=
  let completed := exec module_path
  { path := module_path
    return_code := completed.return_code
    duration_ms := completed.duration_ms
    stdout := completed.stdout
    stderr := completed.stderr }

/-- Ordering of results by the `item.path` sort key used in
`run_modules`: `ModuleResult.path` is a plain `str`, so the worker-pool
re-sort compares path strings by code points. -/
def resultPathLe (a b : ModuleResult) : Prop :=
  charListLe a.path.data b.path.data = true

instance : DecidableRel resultPathLe := fun a b =>
  inferInstanceAs (Decidable (charListLe a.path.data b.path.data = true))

/-- The order `sorted` applies in `discover_modules`: the glob results
are `Path` objects, which `pathlib` (CPython 3.11) orders by their
component tuple — not by the rendered string. -/
def pathPartsLe (a b : String) : Prop :=
  strListLe (LiveRunUnifiedRunner.splitPath a)
    (LiveRunUnifiedRunner.splitPath b) = true

instance : DecidableRel pathPartsLe := fun a b =>
  inferInstanceAs (Decidable (strListLe _ _ = true))

/-- Embeds `discover_modules`: the glob matches (abstracted as an input
list) filtered to regular files and sorted part-wise as `Path` objects;
`sorted` is modelled by the stable `insertionSort`. -/
def discover_modules (glob_matches : List String)
    (is_file : String → Bool) : List String :=
  List.insertionSort pathPartsLe (glob_matches.filter is_file)

/-- Embeds `run_modules`: with one worker the modules run sequentially in
order; with several workers the pool yields results in completion order —
abstracted as the parameter `completion`, an arbitrary permutation of the
per-module results — and the list is then re-sorted by module path before
being returned. -/
def run_modules (exec : String → ModuleExecOutcome) (workers : Nat)
    (completion : List ModuleResult) (modules : List String) :
    List ModuleResult :=
  if workers = 1 then modules.map (run_module exec)
  else List.insertionSort resultPathLe completion

/-- A concrete deterministic module oracle for the witness example. -/
def constModuleExec : String → ModuleExecOutcome :=
  fun _ => ⟨0, 1, "", ""⟩

end CiHelperParallelRunner

/-! ## Theorems -/

namespace CiCheckoutRetry

theorem firstSuccess_eq_none_iff (l : List String) :
    firstSuccess l = none ↔ "success" ∉ l := by
  induction l with
  | nil => simp [firstSuccess]
  | cons o rest ih =>
    by_cases ho : o = "success"
    · subst ho; simp [firstSuccess]
    · simp [firstSuccess, ho, ih, Ne.symm ho]

theorem firstSuccess_eq_some_iff (l : List String) (k : Nat) :
    firstSuccess l = some k ↔
      ∃ pre post, l = pre ++ "success" :: post ∧ k = pre.length + 1 ∧
        "success" ∉ pre := by
  induction l generalizing k with
  | nil =>
    simp only [firstSuccess]
    constructor
    · intro h; exact absurd h (by simp)
    · rintro ⟨pre, post, heq, -, -⟩
      exact absurd heq (by simp)
  | cons o rest ih =>
    by_cases ho : o = "success"
    · subst ho
      simp only [firstSuccess, if_pos rfl]
      constructor
      · intro h
        injection h with h
        exact ⟨[], rest, by simp, by simp [← h], by simp⟩
      · rintro ⟨pre, post, heq, hk, hmem⟩
        cases pre with
        | nil =>
          simp only [List.length_nil, Nat.zero_add] at hk
          subst hk; rfl
        | cons x xs =>
          have hx : "success" = x := (List.cons_eq_cons.mp heq).1
          exact absurd (by simp [hx]) hmem
    · simp only [firstSuccess, if_neg ho]
      constructor
      · intro h
        rcases hm : firstSuccess rest with _ | k2
        · rw [hm] at h; simp at h
        · rw [hm] at h
          simp only [Option.map_some'] at h
          injection h with h
          obtain ⟨pre, post, heq, hk2, hmem⟩ := (ih k2).mp hm
          refine ⟨o :: pre, post, by simp [heq], ?_, ?_⟩
          · simp [← h, hk2]
          · intro hmem2
            rcases List.mem_cons.mp hmem2 with h1 | h2
            · exact ho h1.symm
            · exact hmem h2
      · rintro ⟨pre, post, heq, hk, hmem⟩
        cases pre with
        | nil =>
          have : o = "success" := (List.cons_eq_cons.mp (by simpa using heq)).1
          exact absurd this ho
        | cons x xs =>
          obtain ⟨hx, hrest⟩ := List.cons_eq_cons.mp heq
          have hnotmem : "success" ∉ xs := fun h2 => hmem (List.mem_cons_of_mem _ h2)
          have : firstSuccess rest = some (xs.length + 1) :=
            (ih _).mpr ⟨xs, post, hrest, rfl, hnotmem⟩
          rw [this]
          simp only [Option.map_some', List.length_cons] at hk ⊢
          congr 1
          omega

/-- Claim C1: for every valid retry policy (`max_attempts = n ≥ 1`,
`0 ≤ base_delay_seconds ≤ cap_delay_seconds`), `compute_retry_delays`
returns exactly `n - 1` integers, the delay for retry `k` (1-indexed,
index `i = k - 1` here) is `min(base * 2^(k-1), cap)`, every value is at
most the cap, the sequence is non-decreasing, and the example policy
`max_attempts=4, base=3, cap=6` yields `[3, 6, 6]`. -/
theorem compute_retry_delays_spec (p : CheckoutRetryPolicy)
    (h1 : 1 ≤ p.max_attempts) (h2 : 0 ≤ p.base_delay_seconds)
    (h3 : p.base_delay_seconds ≤ p.cap_delay_seconds) :
    ((compute_retry_delays p).length : Int) = p.max_attempts - 1 ∧
    (∀ i (hi : i < (compute_retry_delays p).length),
      (compute_retry_delays p)[i] =
        min (p.base_delay_seconds * 2 ^ i) p.cap_delay_seconds) ∧
    (∀ d ∈ compute_retry_delays p, d ≤ p.cap_delay_seconds) ∧
    List.Sorted (· ≤ ·) (compute_retry_delays p) ∧
    compute_retry_delays ⟨4, 3, 6, 12⟩ = [3, 6, 6] := by
  refine ⟨?_, ?_, ?_, ?_, by decide⟩
  · simp only [compute_retry_delays, List.length_map, List.length_range]
    exact Int.toNat_of_nonneg (by omega)
  · intro i hi
    simp [compute_retry_delays]
  · intro d hd
    simp only [compute_retry_delays, List.mem_map, List.mem_range] at hd
    obtain ⟨i, -, rfl⟩ := hd
    exact min_le_right _ _
  · unfold compute_retry_delays
    rw [List.Sorted, List.pairwise_map]
    refine (List.pairwise_lt_range _).imp ?_
    intro a b hab
    exact min_le_min
      (mul_le_mul_of_nonneg_left
        (pow_le_pow_right₀ (by norm_num) (Nat.le_of_lt hab)) h2) le_rfl

theorem compute_retry_delays_spec_witness :
    ((compute_retry_delays ⟨4, 3, 6, 12⟩).length : Int) =
      (4 : Int) - 1 :=
  (compute_retry_delays_spec ⟨4, 3, 6, 12⟩ (by decide) (by decide) (by decide)).1

/-- Claim C2: `build_report` sets `success_attempt` to the 1-indexed
position of the first `"success"` outcome (or `none`); with no success the
report is `failure` / `checkout_retries_exhausted` and the actual delay is
the full planned total; with first success at attempt `k` the status is
`success` and the actual delay sums only the delays before attempt `k`
(zero when `k = 1`); the three-failure example yields
`status=failure, mode=checkout_retries_exhausted, success_attempt=none`. -/
theorem build_report_spec (policy : CheckoutRetryPolicy)
    (outcomes : List String)
    (hlen : (outcomes.length : Int) = policy.max_attempts) :
    ((build_report policy outcomes).success_attempt = none ↔
      ∀ o ∈ outcomes, o ≠ "success") ∧
    (∀ k, (build_report policy outcomes).success_attempt = some k ↔
      ∃ pre post, outcomes = pre ++ "success" :: post ∧ k = pre.length + 1 ∧
        "success" ∉ pre) ∧
    ((∀ o ∈ outcomes, o ≠ "success") →
      (build_report policy outcomes).status = "failure" ∧
      (build_report policy outcomes).mode = "checkout_retries_exhausted" ∧
      (build_report policy outcomes).actual_total_delay_seconds =
        (build_report policy outcomes).planned_total_delay_seconds) ∧
    (∀ k, (build_report policy outcomes).success_attempt = some k →
      (build_report policy outcomes).status = "success" ∧
      (build_report policy outcomes).actual_total_delay_seconds =
        ((compute_retry_delays policy).take (k - 1)).sum ∧
      (k = 1 → (build_report policy outcomes).actual_total_delay_seconds = 0)) ∧
    (build_report policy outcomes).planned_total_delay_seconds =
      (compute_retry_delays policy).sum ∧
    (build_report ⟨3, 3, 6, 12⟩ ["failure", "failure", "failure"]).status =
      "failure" ∧
    (build_report ⟨3, 3, 6, 12⟩ ["failure", "failure", "failure"]).mode =
      "checkout_retries_exhausted" ∧
    (build_report ⟨3, 3, 6, 12⟩
      ["failure", "failure", "failure"]).success_attempt = none := by
  have hnm : (∀ o ∈ outcomes, o ≠ "success") ↔ "success" ∉ outcomes := by
    constructor
    · intro h hmem; exact h _ hmem rfl
    · intro h o hmem heq; exact h (heq ▸ hmem)
  refine ⟨?_, ?_, ?_, ?_, ?_, by decide, by decide, by decide⟩
  · rw [hnm, ← firstSuccess_eq_none_iff]
    rcases hm : firstSuccess outcomes with _ | k <;> simp [build_report, hm]
  · intro k
    rw [← firstSuccess_eq_some_iff]
    rcases hm : firstSuccess outcomes with _ | k2 <;> simp [build_report, hm]
  · intro h
    have hm : firstSuccess outcomes = none :=
      (firstSuccess_eq_none_iff outcomes).mpr (hnm.mp h)
    simp [build_report, hm]
  · intro k hk
    rcases hm : firstSuccess outcomes with _ | k2
    · simp [build_report, hm] at hk
    · simp only [build_report, hm, Option.some_inj] at hk ⊢
      subst hk
      exact ⟨by simp, by simp, fun h1 => by subst h1; simp⟩
  · rcases hm : firstSuccess outcomes with _ | k <;> simp [build_report, hm]

theorem build_report_spec_witness :
    (build_report ⟨3, 3, 6, 12⟩ ["failure", "failure", "failure"]).status =
      "failure" ∧
    (build_report ⟨3, 3, 6, 12⟩
      ["failure", "failure", "failure"]).actual_total_delay_seconds =
      (build_report ⟨3, 3, 6, 12⟩
        ["failure", "failure", "failure"]).planned_total_delay_seconds :=
  have h := build_report_spec ⟨3, 3, 6, 12⟩ ["failure", "failure", "failure"]
    (by decide)
  ⟨(h.2.2.1 (by decide)).1, (h.2.2.1 (by decide)).2.2⟩

/-- Claim C8: whenever the planned total retry delay (the sum of all
computed backoff delays) exceeds `max_total_delay_seconds`, the `main`
decision path of `ci_checkout_retry.py` fails with an error (so no summary
or output is produced), and whenever it succeeds the reported delays are
exactly `compute_retry_delays` of the policy — never clamped — with the
planned total within the budget. -/
theorem checkout_retry_main_budget (ma bd cd mt : Int) (raw : String)
    (dry : Bool) :
    ((compute_retry_delays ⟨ma, bd, cd, mt⟩).sum > mt →
      (checkout_retry_main ma bd cd mt raw dry).isOk = false) ∧
    (∀ r, checkout_retry_main ma bd cd mt raw dry = .ok r →
      r.retry_delays_seconds = compute_retry_delays ⟨ma, bd, cd, mt⟩ ∧
      r.planned_total_delay_seconds =
        (compute_retry_delays ⟨ma, bd, cd, mt⟩).sum ∧
      r.planned_total_delay_seconds ≤ mt) := by
  unfold checkout_retry_main
  split
  · exact ⟨fun _ => rfl, fun r hr => absurd hr (by simp)⟩
  split
  · exact ⟨fun _ => rfl, fun r hr => absurd hr (by simp)⟩
  split
  · exact ⟨fun _ => rfl, fun r hr => absurd hr (by simp)⟩
  split
  · exact ⟨fun _ => rfl, fun r hr => absurd hr (by simp)⟩
  split
  · exact ⟨fun _ => rfl, fun r hr => absurd hr (by simp)⟩
  rcases hoe : (if dry then Except.ok (List.replicate ma.toNat "skipped")
      else normalize_outcomes raw ma) with e | outcomes
  · exact ⟨fun _ => rfl, fun r hr => absurd hr (by simp)⟩
  · constructor
    · intro hover
      have : (build_report ⟨ma, bd, cd, mt⟩ outcomes).planned_total_delay_seconds
          > mt := by
        rcases hm : firstSuccess outcomes with _ | k <;>
          simpa [build_report, hm] using hover
      simp only [if_pos this, Except.isOk, Except.toBool]
    · intro r hr
      dsimp only at hr
      split at hr
      · exact absurd hr (by simp)
      · rename_i hle
        injection hr with hr
        subst hr
        have hdelays : (build_report ⟨ma, bd, cd, mt⟩
            outcomes).retry_delays_seconds =
            compute_retry_delays ⟨ma, bd, cd, mt⟩ := by
          rcases hm : firstSuccess outcomes with _ | k <;> simp [build_report, hm]
        have hplanned : (build_report ⟨ma, bd, cd, mt⟩
            outcomes).planned_total_delay_seconds =
            (compute_retry_delays ⟨ma, bd, cd, mt⟩).sum := by
          rcases hm : firstSuccess outcomes with _ | k <;> simp [build_report, hm]
        exact ⟨hdelays, hplanned, by omega⟩

theorem checkout_retry_main_budget_witness :
    (checkout_retry_main 4 3 6 5 "" false).isOk = false :=
  (checkout_retry_main_budget 4 3 6 5 "" false).1 (by decide)

end CiCheckoutRetry

namespace LiveRunUnifiedRunner

theorem parseSurfaces_ok_ids (entries : List Json) (seen : List String)
    (specs : List SurfaceSpec) (h : parseSurfaces entries seen = .ok specs) :
    (specs.map SurfaceSpec.surface_id).Nodup ∧
    ∀ s ∈ specs, s.surface_id ∉ seen := by
  induction entries generalizing seen specs with
  | nil =>
    unfold parseSurfaces at h
    injection h with h
    subst h
    simp
  | cons entry rest ih =>
    unfold parseSurfaces at h
    dsimp only at h
    repeat' split at h
    any_goals exact Except.noConfusion h
    rename_i hseen a1 a2 a3 a4 a5 a6 a7 a8 a9 a10 a11 a12 a13 htail
    injection h with h
    subst h
    obtain ⟨hnd, hnotin⟩ := ih _ _ htail
    constructor
    · rw [List.map_cons, List.nodup_cons]
      refine ⟨?_, hnd⟩
      intro hmem
      obtain ⟨s, hs, hsid⟩ := List.mem_map.mp hmem
      exact hnotin s hs (hsid ▸ List.mem_cons_self _ _)
    · intro s hs
      rcases List.mem_cons.mp hs with rfl | hstail
      · exact hseen
      · intro habs
        exact hnotin s hstail (List.mem_cons_of_mem _ habs)

end LiveRunUnifiedRunner

/-- Claim C3 counterexample: the command-form loader `load_manifest` from
`demo_smoke_runner.py` accepts a manifest containing two units that share
the name `"x"` — it returns the two-element unit list instead of failing
with a duplicate-name error. -/
theorem load_manifest_accepts_duplicate_names :
    DemoSmokeRunner.load_manifest DemoSmokeRunner.dupNameManifest =
      .ok [⟨"x", ["run"], 0, none, none⟩, ⟨"x", ["run"], 0, none, none⟩] := rfl

/-- Claim C3 (amended): a manifest whose `schema_version` is omitted or
differs from the single supported version fails to load in both the
command-form and the surface-form loader, and loading fails atomically
(an error carries no partial unit list); the surface-form loader
additionally guarantees pairwise-distinct unit ids on success — so a
surface manifest with two units named `"x"` fails — but the command-form
loader performs no duplicate-name check and accepts such a manifest. -/
theorem manifest_loaders_spec :
    (∀ fields, pyEqInt (getField fields "schema_version")
        DemoSmokeRunner.DEMO_SMOKE_SCHEMA_VERSION = false →
      (DemoSmokeRunner.load_manifest (Json.obj fields)).isOk = false) ∧
    (∀ fields, pyEqInt (getField fields "schema_version")
        LiveRunUnifiedRunner.SURFACE_MANIFEST_SCHEMA_VERSION = false →
      (LiveRunUnifiedRunner.load_surface_manifest (Json.obj fields)).isOk = false) ∧
    (∀ raw specs, LiveRunUnifiedRunner.load_surface_manifest raw = .ok specs →
      (specs.map LiveRunUnifiedRunner.SurfaceSpec.surface_id).Nodup) ∧
    (LiveRunUnifiedRunner.load_surface_manifest
      LiveRunUnifiedRunner.dupIdSurfaceManifest).isOk = false ∧
    (DemoSmokeRunner.load_manifest DemoSmokeRunner.dupNameManifest).isOk = true := by
  refine ⟨?_, ?_, ?_, rfl, rfl⟩
  · intro fields h
    unfold DemoSmokeRunner.load_manifest
    dsimp only
    rw [h]
    rfl
  · intro fields h
    unfold LiveRunUnifiedRunner.load_surface_manifest
    dsimp only
    rw [h]
    rfl
  · intro raw specs h
    unfold LiveRunUnifiedRunner.load_surface_manifest at h
    repeat' split at h
    any_goals exact Except.noConfusion h
    exact (LiveRunUnifiedRunner.parseSurfaces_ok_ids _ _ _ h).1

theorem manifest_loaders_spec_witness :
    (DemoSmokeRunner.load_manifest (Json.obj [("commands",
      Json.arr [Json.null])])).isOk = false :=
  manifest_loaders_spec.1 [("commands", Json.arr [Json.null])] (by decide)

namespace DemoSmokeRunner

theorem runCommandsLoop_false_eq (exec : SmokeCommand → ExecOutcome)
    (commands : List SmokeCommand) :
    runCommandsLoop exec false commands =
      specFailFastResults (commands.map (run_command exec)) := by
  induction commands with
  | nil => rfl
  | cons c rest ih =>
    simp only [runCommandsLoop, List.map_cons, specFailFastResults]
    cases hs : (run_command exec c).succeeded <;> simp [hs, ih]

theorem runCommandsLoop_true_eq (exec : SmokeCommand → ExecOutcome)
    (commands : List SmokeCommand) :
    runCommandsLoop exec true commands = commands.map (run_command exec) := by
  induction commands with
  | nil => rfl
  | cons c rest ih =>
    simp only [runCommandsLoop, List.map_cons]
    cases hs : (run_command exec c).succeeded <;> simp [hs, ih]

end DemoSmokeRunner

/-- Claim C4: with fail-fast (keep-going unset) the `run_commands` loop
produces, in manifest order, exactly the per-command results up to and
including the first failure — later units are never executed and are
absent from the report; with keep-going set every unit runs.  On the
concrete manifest `[u1(fail), u2(pass)]` the fail-fast report has
`total = 1, failed = 1`, while keep-going runs both units. -/
theorem run_commands_fail_fast :
    (∀ (exec : DemoSmokeRunner.SmokeCommand → DemoSmokeRunner.ExecOutcome)
       (commands : List DemoSmokeRunner.SmokeCommand),
      (DemoSmokeRunner.run_commands exec commands false).results =
        DemoSmokeRunner.specFailFastResults
          (commands.map (DemoSmokeRunner.run_command exec)) ∧
      (DemoSmokeRunner.run_commands exec commands true).results =
        commands.map (DemoSmokeRunner.run_command exec) ∧
      (DemoSmokeRunner.run_commands exec commands true).total = commands.length) ∧
    (DemoSmokeRunner.run_commands DemoSmokeRunner.execU1FailU2Pass
      [DemoSmokeRunner.demoCmd "u1", DemoSmokeRunner.demoCmd "u2"] false).total = 1 ∧
    (DemoSmokeRunner.run_commands DemoSmokeRunner.execU1FailU2Pass
      [DemoSmokeRunner.demoCmd "u1", DemoSmokeRunner.demoCmd "u2"] false).failed = 1 ∧
    (DemoSmokeRunner.run_commands DemoSmokeRunner.execU1FailU2Pass
      [DemoSmokeRunner.demoCmd "u1", DemoSmokeRunner.demoCmd "u2"] true).total = 2 := by
  refine ⟨?_, by decide, by decide, by decide⟩
  intro exec commands
  refine ⟨?_, ?_, ?_⟩
  · simp only [DemoSmokeRunner.run_commands]
    exact DemoSmokeRunner.runCommandsLoop_false_eq exec commands
  · simp only [DemoSmokeRunner.run_commands]
    exact DemoSmokeRunner.runCommandsLoop_true_eq exec commands
  · simp [DemoSmokeRunner.run_commands, DemoSmokeRunner.runCommandsLoop_true_eq]

/-- Claim C5: a surface unit's status is `"passed"` exactly when its
process exit code is 0; entirely-absent artifact roots or zero copied
artifacts despite success only add diagnostics and never flip the unit or
orchestrator outcome; the orchestrator reports overall status `"passed"`
(process exit code 0) exactly when every executed unit passed, and exit
code 1 otherwise. -/
theorem run_surface_status_spec :
    (∀ (spec : LiveRunUnifiedRunner.SurfaceSpec) (rc : Int)
       (artifacts : List LiveRunUnifiedRunner.ArtifactEntry)
       (missing : List String),
      ((LiveRunUnifiedRunner.run_surface_result spec rc artifacts missing).status =
          "passed" ↔ rc = 0) ∧
      (LiveRunUnifiedRunner.run_surface_result spec rc artifacts missing).exit_code =
        rc ∧
      (missing ≠ [] → "missing expected artifact roots" ∈
        (LiveRunUnifiedRunner.run_surface_result spec rc artifacts
          missing).diagnostics) ∧
      (rc = 0 → artifacts = [] → "surface run produced no copied artifacts" ∈
        (LiveRunUnifiedRunner.run_surface_result spec rc artifacts
          missing).diagnostics)) ∧
    (∀ results : List LiveRunUnifiedRunner.SurfaceRunResultM,
      (LiveRunUnifiedRunner.overallStatus results = "passed" ↔
        ∀ r ∈ results, r.status = "passed") ∧
      (LiveRunUnifiedRunner.mainExitCode results = 0 ↔
        LiveRunUnifiedRunner.overallStatus results = "passed") ∧
      (LiveRunUnifiedRunner.mainExitCode results = 0 ∨
        LiveRunUnifiedRunner.mainExitCode results = 1)) := by
  constructor
  · intro spec rc artifacts missing
    refine ⟨?_, rfl, ?_, ?_⟩
    · by_cases h : rc = 0 <;>
        simp [LiveRunUnifiedRunner.run_surface_result, h]
    · intro hm
      by_cases h : rc = 0 <;>
        simp [LiveRunUnifiedRunner.run_surface_result,
          LiveRunUnifiedRunner.surfaceDiagnostics, h, hm]
    · intro h ha
      subst h
      simp [LiveRunUnifiedRunner.run_surface_result,
        LiveRunUnifiedRunner.surfaceDiagnostics, ha]
  · intro results
    have hle := List.countP_le_length
      (fun r : LiveRunUnifiedRunner.SurfaceRunResultM => r.status == "passed")
      (l := results)
    refine ⟨?_, ?_, ?_⟩
    · unfold LiveRunUnifiedRunner.overallStatus
      split
      · rename_i h0
        refine iff_of_true rfl ?_
        intro r hr
        have hc : results.countP
            (fun r : LiveRunUnifiedRunner.SurfaceRunResultM =>
              r.status == "passed") = results.length := by
          unfold LiveRunUnifiedRunner.passedSurfaces at h0
          omega
        simpa using List.countP_eq_length.mp hc r hr
      · rename_i h0
        refine iff_of_false (by decide) ?_
        intro hall
        apply h0
        unfold LiveRunUnifiedRunner.passedSurfaces
        have hc : results.countP
            (fun r : LiveRunUnifiedRunner.SurfaceRunResultM =>
              r.status == "passed") = results.length :=
          List.countP_eq_length.mpr (fun r hr => by simpa using hall r hr)
        omega
    · unfold LiveRunUnifiedRunner.mainExitCode LiveRunUnifiedRunner.overallStatus
      split <;> simp
    · unfold LiveRunUnifiedRunner.mainExitCode
      split <;> simp

theorem run_surface_status_spec_witness :
    "missing expected artifact roots" ∈
      (LiveRunUnifiedRunner.run_surface_result ⟨"s", "x.sh", ["r"]⟩ 0 []
        ["r"]).diagnostics :=
  (run_surface_status_spec.1 ⟨"s", "x.sh", ["r"]⟩ 0 [] ["r"]).2.2.1 (by decide)

/-- Claim C9 counterexample: `--timeout-seconds 0` is a non-positive value
yet the CLI accepts it (timeout forwarding is simply disabled), so the
claim that every value `≤ 0` is rejected fails at 0. -/
theorem validateTimeoutSeconds_zero_ok :
    (LiveRunUnifiedRunner.validateTimeoutSeconds 0).isOk = true := rfl

/-- Claim C9 (amended): the CLI rejects every negative value passed to
`--timeout-seconds` with a validation error raised before any unit
executes; zero is accepted and disables timeout forwarding, and positive
values are forwarded unchanged. -/
theorem validateTimeoutSeconds_spec (t : Int) :
    (t < 0 → (LiveRunUnifiedRunner.validateTimeoutSeconds t).isOk = false) ∧
    LiveRunUnifiedRunner.validateTimeoutSeconds 0 = .ok none ∧
    (t > 0 → LiveRunUnifiedRunner.validateTimeoutSeconds t = .ok (some t)) := by
  refine ⟨?_, rfl, ?_⟩
  · intro h
    unfold LiveRunUnifiedRunner.validateTimeoutSeconds
    rw [if_pos h]
    rfl
  · intro h
    unfold LiveRunUnifiedRunner.validateTimeoutSeconds
    rw [if_neg (by omega), if_pos h]

theorem validateTimeoutSeconds_spec_witness :
    (LiveRunUnifiedRunner.validateTimeoutSeconds (-3)).isOk = false :=
  (validateTimeoutSeconds_spec (-3)).1 (by decide)

theorem charListLe_total : ∀ a b : List Char,
    charListLe a b = true ∨ charListLe b a = true
  | [], _ => Or.inl rfl
  | _ :: _, [] => Or.inr rfl
  | a :: as, b :: bs => by
    unfold charListLe
    rcases lt_trichotomy a b with h | h | h
    · left; rw [if_pos h]
    · subst h
      rcases charListLe_total as bs with ih | ih
      · left; rw [if_neg (lt_irrefl a), if_pos rfl]; exact ih
      · right; rw [if_neg (lt_irrefl a), if_pos rfl]; exact ih
    · right; rw [if_pos h]

theorem charListLe_trans : ∀ a b c : List Char, charListLe a b = true →
    charListLe b c = true → charListLe a c = true
  | [], _, _, _, _ => rfl
  | _ :: _, [], _, h1, _ => by simp [charListLe] at h1
  | _ :: _, _ :: _, [], _, h2 => by simp [charListLe] at h2
  | a :: as, b :: bs, c :: cs, h1, h2 => by
    unfold charListLe at h1 h2 ⊢
    by_cases hab : a < b
    · by_cases hbc : b < c
      · rw [if_pos (lt_trans hab hbc)]
      · by_cases hbc2 : b = c
        · subst hbc2; rw [if_pos hab]
        · rw [if_neg hbc, if_neg hbc2] at h2; simp at h2
    · by_cases hab2 : a = b
      · subst hab2
        rw [if_neg hab, if_pos rfl] at h1
        by_cases hbc : a < c
        · rw [if_pos hbc]
        · by_cases hbc2 : a = c
          · subst hbc2
            rw [if_neg hbc, if_pos rfl] at h2 ⊢
            exact charListLe_trans as bs cs h1 h2
          · rw [if_neg hbc, if_neg hbc2] at h2; simp at h2
      · rw [if_neg hab, if_neg hab2] at h1; simp at h1

theorem charListLe_antisymm : ∀ a b : List Char, charListLe a b = true →
    charListLe b a = true → a = b
  | [], [], _, _ => rfl
  | [], _ :: _, _, h2 => by simp [charListLe] at h2
  | _ :: _, [], h1, _ => by simp [charListLe] at h1
  | a :: as, b :: bs, h1, h2 => by
    unfold charListLe at h1 h2
    by_cases hab : a < b
    · rw [if_neg (lt_asymm hab), if_neg (ne_of_gt hab)] at h2
      simp at h2
    · by_cases hab2 : a = b
      · subst hab2
        rw [if_neg hab, if_pos rfl] at h1 h2
        rw [charListLe_antisymm as bs h1 h2]
      · rw [if_neg hab, if_neg hab2] at h1; simp at h1

theorem charListLt_irrefl : ∀ a : List Char, charListLt a a = false
  | [] => rfl
  | c :: cs => by
    rw [charListLt, if_neg (lt_irrefl c), if_pos rfl]
    exact charListLt_irrefl cs

theorem charListLt_trans : ∀ a b c : List Char, charListLt a b = true →
    charListLt b c = true → charListLt a c = true
  | [], [], _, h1, _ => by simp [charListLt] at h1
  | [], _ :: _, [], _, h2 => by simp [charListLt] at h2
  | [], _ :: _, _ :: _, _, _ => rfl
  | _ :: _, [], _, h1, _ => by simp [charListLt] at h1
  | _ :: _, _ :: _, [], _, h2 => by simp [charListLt] at h2
  | a :: as, b :: bs, c :: cs, h1, h2 => by
    unfold charListLt at h1 h2 ⊢
    by_cases hab : a < b
    · by_cases hbc : b < c
      · rw [if_pos (lt_trans hab hbc)]
      · by_cases hbc2 : b = c
        · subst hbc2; rw [if_pos hab]
        · rw [if_neg hbc, if_neg hbc2] at h2; simp at h2
    · by_cases hab2 : a = b
      · subst hab2
        rw [if_neg hab, if_pos rfl] at h1
        by_cases hbc : a < c
        · rw [if_pos hbc]
        · by_cases hbc2 : a = c
          · subst hbc2
            rw [if_neg hbc, if_pos rfl] at h2 ⊢
            exact charListLt_trans as bs cs h1 h2
          · rw [if_neg hbc, if_neg hbc2] at h2; simp at h2
      · rw [if_neg hab, if_neg hab2] at h1; simp at h1

theorem charListLt_asymm : ∀ a b : List Char, charListLt a b = true →
    charListLt b a = false
  | [], [], h1 => by simp [charListLt] at h1
  | [], _ :: _, _ => rfl
  | _ :: _, [], h1 => by simp [charListLt] at h1
  | a :: as, b :: bs, h1 => by
    unfold charListLt at h1 ⊢
    by_cases hab : a < b
    · rw [if_neg (lt_asymm hab), if_neg (ne_of_gt hab)]
    · by_cases hab2 : a = b
      · subst hab2
        rw [if_neg hab, if_pos rfl] at h1
        rw [if_neg hab, if_pos rfl]
        exact charListLt_asymm as bs h1
      · rw [if_neg hab, if_neg hab2] at h1; simp at h1

theorem charListLt_trichotomy : ∀ a b : List Char,
    charListLt a b = true ∨ a = b ∨ charListLt b a = true
  | [], [] => Or.inr (Or.inl rfl)
  | [], _ :: _ => Or.inl rfl
  | _ :: _, [] => Or.inr (Or.inr rfl)
  | a :: as, b :: bs => by
    unfold charListLt
    rcases lt_trichotomy a b with h | h | h
    · left; rw [if_pos h]
    · subst h
      rcases charListLt_trichotomy as bs with ih | ih | ih
      · left; rw [if_neg (lt_irrefl a), if_pos rfl]; exact ih
      · exact Or.inr (Or.inl (by rw [ih]))
      · right; right; rw [if_neg (lt_irrefl a), if_pos rfl]; exact ih
    · right; right; rw [if_pos h]

theorem strListLe_total : ∀ a b : List String,
    strListLe a b = true ∨ strListLe b a = true
  | [], _ => Or.inl rfl
  | _ :: _, [] => Or.inr rfl
  | a :: as, b :: bs => by
    unfold strListLe
    rcases charListLt_trichotomy a.data b.data with h | h | h
    · left; rw [if_pos h]
    · have hab : a = b := by
        cases a; cases b; exact congrArg String.mk h
      subst hab
      rcases strListLe_total as bs with ih | ih
      · left
        rw [if_neg (by rw [charListLt_irrefl]; simp), if_pos rfl]
        exact ih
      · right
        rw [if_neg (by rw [charListLt_irrefl]; simp), if_pos rfl]
        exact ih
    · right; rw [if_pos h]

theorem strListLe_trans : ∀ a b c : List String, strListLe a b = true →
    strListLe b c = true → strListLe a c = true
  | [], _, _, _, _ => rfl
  | _ :: _, [], _, h1, _ => by simp [strListLe] at h1
  | _ :: _, _ :: _, [], _, h2 => by simp [strListLe] at h2
  | a :: as, b :: bs, c :: cs, h1, h2 => by
    unfold strListLe at h1 h2 ⊢
    by_cases hab : charListLt a.data b.data = true
    · rw [if_pos hab] at h1
      by_cases hbc : charListLt b.data c.data = true
      · rw [if_pos (charListLt_trans _ _ _ hab hbc)]
      · by_cases hbc2 : b = c
        · subst hbc2; rw [if_pos hab]
        · rw [if_neg hbc, if_neg hbc2] at h2; simp at h2
    · by_cases hab2 : a = b
      · subst hab2
        rw [if_neg hab, if_pos rfl] at h1
        by_cases hbc : charListLt a.data c.data = true
        · rw [if_pos hbc]
        · by_cases hbc2 : a = c
          · subst hbc2
            rw [if_neg hbc, if_pos rfl] at h2 ⊢
            exact strListLe_trans as bs cs h1 h2
          · rw [if_neg hbc, if_neg hbc2] at h2; simp at h2
      · rw [if_neg hab, if_neg hab2] at h1; simp at h1

theorem strListLe_antisymm : ∀ a b : List String, strListLe a b = true →
    strListLe b a = true → a = b
  | [], [], _, _ => rfl
  | [], _ :: _, _, h2 => by simp [strListLe] at h2
  | _ :: _, [], h1, _ => by simp [strListLe] at h1
  | a :: as, b :: bs, h1, h2 => by
    unfold strListLe at h1 h2
    by_cases hab : charListLt a.data b.data = true
    · rw [if_neg (by rw [charListLt_asymm _ _ hab]; simp),
        if_neg (fun habs : b = a => by
          rw [habs, charListLt_irrefl] at hab; simp at hab)] at h2
      simp at h2
    · by_cases hab2 : a = b
      · subst hab2
        rw [if_neg hab, if_pos rfl] at h1 h2
        rw [strListLe_antisymm as bs h1 h2]
      · rw [if_neg hab, if_neg hab2] at h1; simp at h1

theorem sorted_perm_eq {α : Type} {r : α → α → Prop} :
    ∀ (l₁ l₂ : List α), l₁.Perm l₂ → l₁.Sorted r → l₂.Sorted r →
      (∀ a ∈ l₁, ∀ b ∈ l₁, r a b → r b a → a = b) → l₁ = l₂
  | [], _, hp, _, _, _ => hp.nil_eq
  | a :: t₁, [], hp, _, _, _ => absurd hp.symm.nil_eq (by simp)
  | a :: t₁, b :: t₂, hp, hs₁, hs₂, hanti => by
    by_cases hab : a = b
    · subst hab
      have hteq : t₁ = t₂ :=
        sorted_perm_eq t₁ t₂ hp.cons_inv hs₁.of_cons hs₂.of_cons
          (fun x hx y hy hr hrr =>
            hanti x (List.mem_cons_of_mem _ hx) y (List.mem_cons_of_mem _ hy)
              hr hrr)
      rw [hteq]
    · exfalso
      have hbmem : b ∈ a :: t₁ := hp.mem_iff.mpr (List.mem_cons_self _ _)
      have hbt : b ∈ t₁ := by
        rcases List.mem_cons.mp hbmem with h | h
        · exact absurd h.symm hab
        · exact h
      have hamem : a ∈ b :: t₂ := hp.mem_iff.mp (List.mem_cons_self _ _)
      have hat : a ∈ t₂ := by
        rcases List.mem_cons.mp hamem with h | h
        · exact absurd h hab
        · exact h
      have hrab : r a b := List.rel_of_sorted_cons hs₁ b hbt
      have hrba : r b a := List.rel_of_sorted_cons hs₂ a hat
      exact hab (hanti a (List.mem_cons_self _ _) b hbmem hrab hrba)

instance : IsTrans String strLe :=
  ⟨fun a b c => charListLe_trans a.data b.data c.data⟩

instance : IsTotal String strLe :=
  ⟨fun a b => charListLe_total a.data b.data⟩

instance : IsTrans CiHelperParallelRunner.ModuleResult
    CiHelperParallelRunner.resultPathLe :=
  ⟨fun a b c => charListLe_trans a.path.data b.path.data c.path.data⟩

instance : IsTotal CiHelperParallelRunner.ModuleResult
    CiHelperParallelRunner.resultPathLe :=
  ⟨fun a b => charListLe_total a.path.data b.path.data⟩

/-- Claim C7 counterexample: with glob matches `foo/test_b.py` and
`foo.d/test_a.py` (a multi-directory pattern), discovery sorts `Path`
objects part-wise and puts `foo/test_b.py` first, while the worker-pool
re-sort keys on the path string and puts `foo.d/test_a.py` first
(`.` precedes `/` in code points) — so for the same completion order the
sequential one-worker report and the parallel report disagree, refuting
the claim that every worker count yields the same ordering. -/
theorem run_modules_order_counterexample :
    CiHelperParallelRunner.run_modules CiHelperParallelRunner.constModuleExec
      1
      ((CiHelperParallelRunner.discover_modules
        ["foo/test_b.py", "foo.d/test_a.py"] (fun _ => true)).map
        (CiHelperParallelRunner.run_module
          CiHelperParallelRunner.constModuleExec))
      (CiHelperParallelRunner.discover_modules
        ["foo/test_b.py", "foo.d/test_a.py"] (fun _ => true)) ≠
    CiHelperParallelRunner.run_modules CiHelperParallelRunner.constModuleExec
      2
      ((CiHelperParallelRunner.discover_modules
        ["foo/test_b.py", "foo.d/test_a.py"] (fun _ => true)).map
        (CiHelperParallelRunner.run_module
          CiHelperParallelRunner.constModuleExec))
      (CiHelperParallelRunner.discover_modules
        ["foo/test_b.py", "foo.d/test_a.py"] (fun _ => true)) := by decide

/-- Claim C7 (amended): in parallel worker-pool mode (`workers ≠ 1`) the
results collected in completion order (any permutation of the per-module
results) are re-sorted by the module path string before reporting, so for
every module list the reported ordering is the same string-sorted order
regardless of actual completion order, and it is sorted by path; the
sequential one-worker path instead reports in discovery order — pathlib's
part-wise path order — which coincides with the parallel ordering for
single-directory module sets (such as the default `test_*.py` pattern,
illustrated concretely) but can differ when the glob pattern spans
directories. -/
theorem run_modules_canonical (exec : String →
      CiHelperParallelRunner.ModuleExecOutcome)
    (modules : List String) (workers : Nat)
    (completion : List CiHelperParallelRunner.ModuleResult)
    (hw : workers ≠ 1)
    (hc : completion.Perm
      (modules.map (CiHelperParallelRunner.run_module exec))) :
    CiHelperParallelRunner.run_modules exec workers completion modules =
      List.insertionSort CiHelperParallelRunner.resultPathLe
        (modules.map (CiHelperParallelRunner.run_module exec)) ∧
    List.Sorted CiHelperParallelRunner.resultPathLe
      (CiHelperParallelRunner.run_modules exec workers completion modules) ∧
    (∀ completion2 : List CiHelperParallelRunner.ModuleResult,
      CiHelperParallelRunner.run_modules exec 1 completion2 modules =
        modules.map (CiHelperParallelRunner.run_module exec)) ∧
    CiHelperParallelRunner.run_modules CiHelperParallelRunner.constModuleExec
        1
        ((CiHelperParallelRunner.discover_modules
          ["d/test_b.py", "d/test_a.py"] (fun _ => true)).map
          (CiHelperParallelRunner.run_module
            CiHelperParallelRunner.constModuleExec))
        (CiHelperParallelRunner.discover_modules
          ["d/test_b.py", "d/test_a.py"] (fun _ => true)) =
      CiHelperParallelRunner.run_modules
        CiHelperParallelRunner.constModuleExec 2
        ((CiHelperParallelRunner.discover_modules
          ["d/test_b.py", "d/test_a.py"] (fun _ => true)).map
          (CiHelperParallelRunner.run_module
            CiHelperParallelRunner.constModuleExec))
        (CiHelperParallelRunner.discover_modules
          ["d/test_b.py", "d/test_a.py"] (fun _ => true)) := by
  have hmain : CiHelperParallelRunner.run_modules exec workers completion
      modules =
      List.insertionSort CiHelperParallelRunner.resultPathLe
        (modules.map (CiHelperParallelRunner.run_module exec)) := by
    unfold CiHelperParallelRunner.run_modules
    rw [if_neg hw]
    apply sorted_perm_eq
    · exact ((List.perm_insertionSort _ _).trans hc).trans
        (List.perm_insertionSort _ _).symm
    · exact List.sorted_insertionSort _ _
    · exact List.sorted_insertionSort _ _
    · intro x hx y hy hxy hyx
      have hx2 : x ∈ modules.map (CiHelperParallelRunner.run_module exec) :=
        hc.mem_iff.mp ((List.perm_insertionSort _ _).mem_iff.mp hx)
      have hy2 : y ∈ modules.map (CiHelperParallelRunner.run_module exec) :=
        hc.mem_iff.mp ((List.perm_insertionSort _ _).mem_iff.mp hy)
      obtain ⟨px, -, rfl⟩ := List.mem_map.mp hx2
      obtain ⟨py, -, rfl⟩ := List.mem_map.mp hy2
      have hdata : px.data = py.data := charListLe_antisymm _ _ hxy hyx
      have hpxy : px = py := by
        cases px; cases py
        exact congrArg String.mk hdata
      rw [hpxy]
  refine ⟨hmain, hmain ▸ List.sorted_insertionSort _ _, ?_, by decide⟩
  intro completion2
  unfold CiHelperParallelRunner.run_modules
  rw [if_pos rfl]

theorem run_modules_canonical_witness :
    CiHelperParallelRunner.run_modules CiHelperParallelRunner.constModuleExec
      2
      (["b.py", "a.py"].map (CiHelperParallelRunner.run_module
        CiHelperParallelRunner.constModuleExec))
      ["b.py", "a.py"] =
    List.insertionSort CiHelperParallelRunner.resultPathLe
      (["b.py", "a.py"].map (CiHelperParallelRunner.run_module
        CiHelperParallelRunner.constModuleExec)) :=
  (run_modules_canonical CiHelperParallelRunner.constModuleExec
    ["b.py", "a.py"] 2
    (["b.py", "a.py"].map (CiHelperParallelRunner.run_module
      CiHelperParallelRunner.constModuleExec))
    (by decide) (List.Perm.refl _)).1

namespace LiveRunUnifiedRunner

theorem sha256ReadLoop_eq (fuel : Nat) : ∀ (acc rem : List Nat),
    sha256ReadLoop fuel acc rem = acc ++ rem := by
  induction fuel with
  | zero =>
    intro acc rem
    cases rem <;> simp [sha256ReadLoop]
  | succ f ih =>
    intro acc rem
    cases rem with
    | nil => simp [sha256ReadLoop]
    | cons b rest =>
      simp only [sha256ReadLoop]
      rw [ih, List.append_assoc, List.take_append_drop]

theorem file_sha256_eq (hash : List Nat → String) (content : List Nat) :
    file_sha256 hash content = hash content := by
  rw [file_sha256, sha256ReadLoop_eq, List.nil_append]

theorem fsLookup_eq_some_mem {fs : FS} {p : List String} {c : List Nat}
    (h : fsLookup fs p = some c) : (p, c) ∈ fs := by
  induction fs with
  | nil => simp [fsLookup] at h
  | cons e rest ih =>
    rw [fsLookup] at h
    split at h
    · rename_i heq
      injection h with h
      subst h
      subst heq
      exact List.mem_cons_self _ _
    · exact List.mem_cons_of_mem _ (ih h)

theorem fsLookup_mem_of_nodup {fs : FS} {p : List String} {c : List Nat}
    (hnd : (fs.map Prod.fst).Nodup) (hmem : (p, c) ∈ fs) :
    fsLookup fs p = some c := by
  induction fs with
  | nil => simp at hmem
  | cons e rest ih =>
    rw [List.map_cons, List.nodup_cons] at hnd
    rcases List.mem_cons.mp hmem with rfl | hmem2
    · rw [fsLookup, if_pos rfl]
    · rw [fsLookup]
      split
      · rename_i heq
        exfalso
        apply hnd.1
        rw [heq]
        exact List.mem_map.mpr ⟨(p, c), hmem2, rfl⟩
      · exact ih hnd.2 hmem2

theorem fsIsFile_iff {fs : FS} {p : List String} :
    fsIsFile fs p = true ↔ ∃ c, fsLookup fs p = some c := by
  induction fs with
  | nil => simp [fsIsFile, fsLookup]
  | cons e rest ih =>
    rw [fsIsFile, List.any_cons]
    rw [fsLookup]
    by_cases heq : e.1 = p
    · simp [heq]
    · have : (e.1 == p) = false := beq_eq_false_iff_ne.mpr heq
      simp only [this, Bool.false_or, if_neg heq]
      exact ih

theorem fsLookup_append (l₁ l₂ : FS) (p : List String) :
    fsLookup (l₁ ++ l₂) p =
      match fsLookup l₁ p with
      | some c => some c
      | none => fsLookup l₂ p := by
  induction l₁ with
  | nil => simp [fsLookup]
  | cons e rest ih =>
    rw [List.cons_append, fsLookup, fsLookup]
    split
    · rfl
    · exact ih

theorem fsLookup_filter_self_none (fs : FS) (p : List String) :
    fsLookup (fs.filter (fun e => !(e.1 == p))) p = none := by
  induction fs with
  | nil => rfl
  | cons e rest ih =>
    rw [List.filter_cons]
    split
    · rename_i hkeep
      rw [fsLookup]
      split
      · rename_i heq
        rw [heq] at hkeep
        simp at hkeep
      · exact ih
    · exact ih

theorem fsLookup_writeFile_self (fs : FS) (p : List String) (c : List Nat) :
    fsLookup (fsWriteFile fs p c) p = some c := by
  rw [fsWriteFile, fsLookup_append, fsLookup_filter_self_none]
  rw [fsLookup, if_pos rfl]

theorem fsLookup_none_of_not_exists {fs : FS} {d : List String}
    (h : fsExists fs d = false) (rest : List String) :
    fsLookup fs (d ++ rest) = none := by
  rw [fsExists, Bool.or_eq_false_iff] at h
  obtain ⟨hfile, hdir⟩ := h
  by_contra hne
  rcases ho : fsLookup fs (d ++ rest) with _ | c
  · exact hne ho
  have hmem := fsLookup_eq_some_mem ho
  cases rest with
  | nil =>
    rw [fsIsFile] at hfile
    rw [List.any_eq_false] at hfile
    exact hfile _ hmem (by simp)
  | cons r rs =>
    rw [fsIsDir] at hdir
    rw [List.any_eq_false] at hdir
    apply hdir _ hmem
    simp only [Bool.and_eq_true, Bool.not_eq_eq_eq_not, Bool.not_true,
      beq_eq_false_iff_ne]
    constructor
    · exact List.isPrefixOf_iff_prefix.mpr (List.prefix_append d (r :: rs))
    · intro habs
      have : (d ++ r :: rs).length = d.length := by rw [habs]
      simp at this

theorem fsLookup_removeTree_none {d q : List String} (hpre : d <+: q)
    (fs : FS) : fsLookup (fsRemoveTree fs d) q = none := by
  induction fs with
  | nil => rfl
  | cons e rest ih =>
    rw [fsRemoveTree, List.filter_cons]
    split
    · rename_i hkeep
      rw [fsLookup]
      split
      · rename_i heq
        exfalso
        rw [heq] at hkeep
        rw [Bool.not_eq_eq_eq_not, Bool.not_true] at hkeep
        exact absurd (List.isPrefixOf_iff_prefix.mpr hpre) (by simp [hkeep])
      · exact ih
    · exact ih

end LiveRunUnifiedRunner

namespace LiveRunUnifiedRunner

theorem treeMap_mem {fs : FS} {src dst p : List String} {c : List Nat}
    (hmem : (p, c) ∈ fs) (hpre : src <+: p) :
    (dst ++ p.drop src.length, c) ∈ treeMap fs src dst := by
  rw [treeMap]
  exact List.mem_filterMap.mpr
    ⟨(p, c), hmem, by rw [if_pos (List.isPrefixOf_iff_prefix.mpr hpre)]⟩

theorem treeMap_keys_nodup {src dst : List String} : ∀ {fs : FS},
    (fs.map Prod.fst).Nodup → ((treeMap fs src dst).map Prod.fst).Nodup := by
  intro fs
  induction fs with
  | nil => intro _; simp [treeMap]
  | cons e rest ih =>
    intro hnd
    rw [List.map_cons, List.nodup_cons] at hnd
    rw [treeMap, List.filterMap_cons]
    split
    · exact ih hnd.2
    · rename_i v hv
      rw [List.map_cons, List.nodup_cons]
      refine ⟨?_, ih hnd.2⟩
      intro habs
      obtain ⟨w, hw, hwk⟩ := List.mem_map.mp habs
      obtain ⟨a, ha, hfa⟩ := List.mem_filterMap.mp hw
      by_cases hce : src.isPrefixOf e.1
      · rw [if_pos hce] at hv
        injection hv with hv
        subst hv
        by_cases hca : src.isPrefixOf a.1
        · rw [if_pos hca] at hfa
          injection hfa with hfa
          subst hfa
          simp only at hwk
          have hdropeq : a.1.drop src.length = e.1.drop src.length :=
            List.append_cancel_left hwk
          have hea : e.1 = a.1 := by
            have h1 := List.prefix_iff_eq_append.mp
              (List.isPrefixOf_iff_prefix.mp hce)
            have h2 := List.prefix_iff_eq_append.mp
              (List.isPrefixOf_iff_prefix.mp hca)
            rw [← h1, ← h2, hdropeq]
          exact hnd.1 (hea ▸ List.mem_map.mpr ⟨a, ha, rfl⟩)
        · rw [if_neg hca] at hfa
          exact absurd hfa (by simp)
      · rw [if_neg hce] at hv
        exact absurd hv (by simp)

theorem copyTree_into_clean {fs1 : FS} {src dst : List String}
    (hnd : (fs1.map Prod.fst).Nodup)
    (hclean : ∀ e ∈ fs1, ¬ dst <+: e.1)
    (rest : List String) (c : List Nat)
    (hsrc : fsLookup fs1 (src ++ rest) = some c) :
    fsLookup (fsCopyTree fs1 src dst) (dst ++ rest) = some c := by
  rw [fsCopyTree, fsLookup_append]
  have h1 : fsLookup fs1 (dst ++ rest) = none := by
    rcases ho : fsLookup fs1 (dst ++ rest) with _ | c2
    · rfl
    · exact absurd (List.prefix_append dst rest)
        (hclean _ (fsLookup_eq_some_mem ho))
  rw [h1]
  apply fsLookup_mem_of_nodup (treeMap_keys_nodup hnd)
  have hm : (dst ++ (src ++ rest).drop src.length, c) ∈ treeMap fs1 src dst :=
    treeMap_mem (fsLookup_eq_some_mem hsrc) (List.prefix_append src rest)
  rwa [List.drop_left] at hm

theorem removeTree_keys_nodup {fs : FS} {d : List String}
    (hnd : (fs.map Prod.fst).Nodup) :
    ((fsRemoveTree fs d).map Prod.fst).Nodup := by
  rw [fsRemoveTree]
  exact hnd.sublist (List.Sublist.map _ (List.filter_sublist fs))

theorem removeTree_clean {fs : FS} {d : List String} :
    ∀ e ∈ fsRemoveTree fs d, ¬ d <+: e.1 := by
  intro e he habs
  rw [fsRemoveTree] at he
  have := (List.mem_filter.mp he).2
  rw [Bool.not_eq_eq_eq_not, Bool.not_true] at this
  exact absurd (List.isPrefixOf_iff_prefix.mpr habs) (by simp [this])

theorem not_exists_clean {fs : FS} {d : List String}
    (h : fsExists fs d = false) : ∀ e ∈ fs, ¬ d <+: e.1 := by
  intro e he habs
  rw [fsExists, Bool.or_eq_false_iff] at h
  obtain ⟨hfile, hdir⟩ := h
  rw [fsIsFile, List.any_eq_false] at hfile
  rw [fsIsDir, List.any_eq_false] at hdir
  by_cases heq : e.1 = d
  · exact hfile e he (by simp [heq])
  · apply hdir e he
    simp only [Bool.and_eq_true, Bool.not_eq_eq_eq_not, Bool.not_true,
      beq_eq_false_iff_ne]
    exact ⟨List.isPrefixOf_iff_prefix.mpr habs, heq⟩

theorem fsLookup_filter_of_kept {fs : FS} {q : List String} {c : List Nat}
    (pr : List String × List Nat → Bool)
    (hnd : (fs.map Prod.fst).Nodup)
    (hlook : fsLookup fs q = some c) (hkeep : pr (q, c) = true) :
    fsLookup (fs.filter pr) q = some c := by
  apply fsLookup_mem_of_nodup
    (hnd.sublist (List.Sublist.map _ (List.filter_sublist fs)))
  exact List.mem_filter.mpr ⟨fsLookup_eq_some_mem hlook, hkeep⟩

end LiveRunUnifiedRunner

namespace LiveRunUnifiedRunner

theorem slashFree_append_cancel : ∀ (u v t₁ t₂ : List Char), '/' ∉ u →
    '/' ∉ v → u ++ '/' :: t₁ = v ++ '/' :: t₂ → u = v ∧ t₁ = t₂
  | [], [], t₁, t₂, _, _, h => by
    simp only [List.nil_append, List.cons.injEq, true_and] at h
    exact ⟨rfl, h⟩
  | [], c :: vs, t₁, t₂, _, hv, h => by
    exfalso
    simp only [List.nil_append, List.cons_append, List.cons.injEq] at h
    exact hv (h.1 ▸ List.mem_cons_self _ _)
  | c :: us, [], t₁, t₂, hu, _, h => by
    exfalso
    simp only [List.nil_append, List.cons_append, List.cons.injEq] at h
    exact hu (h.1.symm ▸ List.mem_cons_self _ _)
  | c :: us, d :: vs, t₁, t₂, hu, hv, h => by
    simp only [List.cons_append, List.cons.injEq] at h
    obtain ⟨hcd, hrest⟩ := h
    have hrec := slashFree_append_cancel us vs t₁ t₂
      (fun hm => hu (List.mem_cons_of_mem _ hm))
      (fun hm => hv (List.mem_cons_of_mem _ hm)) hrest
    exact ⟨by rw [hcd, hrec.1], hrec.2⟩

theorem joinPath_cons (x : String) {rest : List String} (h : rest ≠ []) :
    joinPath (x :: rest) = x ++ "/" ++ joinPath rest := by
  cases rest with
  | nil => exact absurd rfl h
  | cons y ys => rfl

theorem joinPath_data_ne_nil {p : List String}
    (hvalid : ∀ c ∈ p, c ≠ "" ∧ '/' ∉ c.data) (hne : p ≠ []) :
    (joinPath p).data ≠ [] := by
  cases p with
  | nil => exact absurd rfl hne
  | cons x rest =>
    cases rest with
    | nil =>
      have hx := (hvalid x (List.mem_cons_self _ _)).1
      simpa [joinPath] using fun habs => hx (by cases x; simp_all)
    | cons y ys =>
      rw [joinPath_cons x (by simp)]
      rw [String.data_append]
      intro habs
      have := congrArg List.length habs
      simp [String.data_append] at this

theorem joinPath_inj : ∀ (p q : List String),
    (∀ c ∈ p, c ≠ "" ∧ '/' ∉ c.data) → (∀ c ∈ q, c ≠ "" ∧ '/' ∉ c.data) →
    joinPath p = joinPath q → p = q
  | [], [], _, _, _ => rfl
  | [], y :: ys, _, hq, h => by
    exfalso
    exact joinPath_data_ne_nil hq (by simp) (by rw [← h]; rfl)
  | x :: xs, [], hp, _, h => by
    exfalso
    exact joinPath_data_ne_nil hp (by simp) (by rw [h]; rfl)
  | x :: xs, y :: ys, hp, hq, h => by
    cases xs with
    | nil =>
      cases ys with
      | nil =>
        simp only [joinPath] at h
        rw [h]
      | cons z zs =>
        exfalso
        rw [joinPath_cons y (by simp)] at h
        have hx := (hp x (List.mem_cons_self _ _)).2
        apply hx
        rw [show x.data = (y ++ "/" ++ joinPath (z :: zs)).data from
          congrArg String.data h]
        simp only [String.data_append]
        exact List.mem_append.mpr (Or.inl (List.mem_append.mpr (Or.inr (by
          simp [show ("/" : String).data = ['/'] from rfl]))))
    | cons w ws =>
      cases ys with
      | nil =>
        exfalso
        rw [joinPath_cons x (by simp)] at h
        have hy := (hq y (List.mem_cons_self _ _)).2
        apply hy
        rw [show y.data = (x ++ "/" ++ joinPath (w :: ws)).data from
          congrArg String.data h.symm]
        simp only [String.data_append]
        exact List.mem_append.mpr (Or.inl (List.mem_append.mpr (Or.inr (by
          simp [show ("/" : String).data = ['/'] from rfl]))))
      | cons z zs =>
        rw [joinPath_cons x (by simp), joinPath_cons y (by simp)] at h
        have hdata := congrArg String.data h
        simp only [String.data_append,
          show ("/" : String).data = ['/'] from rfl, List.append_assoc,
          List.nil_append, List.singleton_append] at hdata
        have hxy := slashFree_append_cancel x.data y.data _ _
          (hp x (List.mem_cons_self _ _)).2 (hq y (List.mem_cons_self _ _)).2
          hdata
        have hx : x = y := by
          cases x; cases y; exact congrArg String.mk hxy.1
        have hjoin : joinPath (w :: ws) = joinPath (z :: zs) := by
          have := hxy.2
          have h2 : String.mk (joinPath (w :: ws)).data =
              String.mk (joinPath (z :: zs)).data := by rw [this]
          cases hw : joinPath (w :: ws)
          cases hz : joinPath (z :: zs)
          rw [hw, hz] at h2
          simpa using h2
        have htail := joinPath_inj (w :: ws) (z :: zs)
          (fun c hc => hp c (List.mem_cons_of_mem _ hc))
          (fun c hc => hq c (List.mem_cons_of_mem _ hc)) hjoin
        rw [hx, htail]

theorem charListLe_append_cancel : ∀ (P a b : List Char),
    charListLe (P ++ a) (P ++ b) = charListLe a b
  | [], _, _ => rfl
  | c :: P, a, b => by
    show charListLe (c :: (P ++ a)) (c :: (P ++ b)) = charListLe a b
    rw [charListLe, if_neg (lt_irrefl c), if_pos rfl]
    exact charListLe_append_cancel P a b

theorem joinPath_append (a b : List String) (ha : a ≠ []) (hb : b ≠ []) :
    joinPath (a ++ b) = joinPath a ++ "/" ++ joinPath b := by
  induction a with
  | nil => exact absurd rfl ha
  | cons x xs ih =>
    cases xs with
    | nil =>
      rw [List.cons_append, List.nil_append, joinPath_cons x hb]
      rfl
    | cons w ws =>
      rw [List.cons_append, joinPath_cons x (by simp),
        joinPath_cons x (show w :: ws ≠ [] by simp), ih (by simp)]
      simp [String.ext_iff, String.data_append]

end LiveRunUnifiedRunner

namespace LiveRunUnifiedRunner

instance : IsTrans (List String × List Nat) entryLe :=
  ⟨fun a b c => strListLe_trans a.1 b.1 c.1⟩

instance : IsTotal (List String × List Nat) entryLe :=
  ⟨fun a b => strListLe_total a.1 b.1⟩

theorem underDir_sod_le {sod p : List String}
    (h : underDir (sod ++ ["artifacts"]) p = true) : sod <+: p := by
  rw [underDir, Bool.and_eq_true] at h
  exact (List.prefix_append sod ["artifacts"]).trans
    (List.isPrefixOf_iff_prefix.mp h.1)

theorem listArtifacts_count_one (hash : List Nat → String)
    (sod : List String) (fs : FS) (hwf : FSWF fs) (p : List String)
    (c : List Nat) (hmem : (p, c) ∈ fs)
    (hunder : underDir (sod ++ ["artifacts"]) p = true) :
    (listArtifacts hash sod fs).count
      ⟨joinPath (p.drop sod.length), c.length, file_sha256 hash c⟩ = 1 := by
  unfold listArtifacts
  have hperm := List.perm_insertionSort entryLe
    (fs.filter (fun e => underDir (sod ++ ["artifacts"]) e.1))
  have hfsnd : fs.Nodup := List.Nodup.of_map _ hwf.1
  have hfiles_nd : (fs.filter
      (fun e => underDir (sod ++ ["artifacts"]) e.1)).Nodup :=
    hfsnd.filter _
  have hsorted_nd : (List.insertionSort entryLe
      (fs.filter (fun e => underDir (sod ++ ["artifacts"]) e.1))).Nodup :=
    hperm.nodup_iff.mpr hfiles_nd
  have hmem2 : (p, c) ∈ List.insertionSort entryLe
      (fs.filter (fun e => underDir (sod ++ ["artifacts"]) e.1)) :=
    hperm.mem_iff.mpr (List.mem_filter.mpr ⟨hmem, hunder⟩)
  apply List.count_eq_one_of_mem
  · apply List.Nodup.map_on ?_ hsorted_nd
    intro x hx y hy hmk
    have hxf := List.mem_filter.mp (hperm.mem_iff.mp hx)
    have hyf := List.mem_filter.mp (hperm.mem_iff.mp hy)
    have hjoin : joinPath (x.1.drop sod.length) =
        joinPath (y.1.drop sod.length) := by
      have := congrArg ArtifactEntry.relative_path hmk
      simpa using this
    have hxvalid : ∀ d ∈ x.1.drop sod.length, d ≠ "" ∧ '/' ∉ d.data :=
      fun d hd => hwf.2 x hxf.1 d (List.mem_of_mem_drop hd)
    have hyvalid : ∀ d ∈ y.1.drop sod.length, d ≠ "" ∧ '/' ∉ d.data :=
      fun d hd => hwf.2 y hyf.1 d (List.mem_of_mem_drop hd)
    have hdrop : x.1.drop sod.length = y.1.drop sod.length :=
      joinPath_inj _ _ hxvalid hyvalid hjoin
    have hkey : x.1 = y.1 := by
      have hx1 := List.prefix_iff_eq_append.mp (underDir_sod_le hxf.2)
      have hy1 := List.prefix_iff_eq_append.mp (underDir_sod_le hyf.2)
      rw [← hx1, ← hy1, hdrop]
    exact List.inj_on_of_nodup_map hwf.1 hxf.1 hyf.1 hkey
  · exact List.mem_map.mpr ⟨(p, c), hmem2, rfl⟩

end LiveRunUnifiedRunner

/-- Claim C6: for each declared artifact root, the copy loop body records
an absent root in the missing list without copying anything; copies a
regular-file root to `artifacts_dir / clean_relative_label(root)`
preserving its content (and name, the label's last component); and copies
a directory root's full tree recursively (every file `source ++ rest`
reappears at `destination ++ rest`, stated for source and destination
trees that do not overlap); the loop is exactly this body iterated in
declaration order; and after copying, every regular file below the
destination tree yields exactly one artifacts entry carrying its relative
path, its byte size, and the digest of its complete byte stream (the
chunked `file_sha256` equals the digest of the whole content). -/
theorem copy_surface_artifacts_per_root (hash : List Nat → String)
    (repo_root artifacts_dir : List String) (fs : LiveRunUnifiedRunner.FS)
    (root : String) :
    (LiveRunUnifiedRunner.fsExists fs
        (LiveRunUnifiedRunner.resolve_path repo_root root) = false →
      LiveRunUnifiedRunner.copyOneRoot repo_root artifacts_dir fs root =
        (fs, true)) ∧
    (LiveRunUnifiedRunner.fsIsFile fs
        (LiveRunUnifiedRunner.resolve_path repo_root root) = true →
      (LiveRunUnifiedRunner.copyOneRoot repo_root artifacts_dir fs root).2 =
        false ∧
      LiveRunUnifiedRunner.fsLookup
          (LiveRunUnifiedRunner.copyOneRoot repo_root artifacts_dir fs
            root).1
          (LiveRunUnifiedRunner.rootDestination artifacts_dir root) =
        LiveRunUnifiedRunner.fsLookup fs
          (LiveRunUnifiedRunner.resolve_path repo_root root)) ∧
    ((fs.map Prod.fst).Nodup →
      LiveRunUnifiedRunner.fsExists fs
        (LiveRunUnifiedRunner.resolve_path repo_root root) = true →
      LiveRunUnifiedRunner.fsIsFile fs
        (LiveRunUnifiedRunner.resolve_path repo_root root) = false →
      ¬ LiveRunUnifiedRunner.resolve_path repo_root root <+:
        LiveRunUnifiedRunner.rootDestination artifacts_dir root →
      ¬ LiveRunUnifiedRunner.rootDestination artifacts_dir root <+:
        LiveRunUnifiedRunner.resolve_path repo_root root →
      (LiveRunUnifiedRunner.copyOneRoot repo_root artifacts_dir fs root).2 =
        false ∧
      (∀ rest c, LiveRunUnifiedRunner.fsLookup fs
          (LiveRunUnifiedRunner.resolve_path repo_root root ++ rest) =
            some c →
        LiveRunUnifiedRunner.fsLookup
            (LiveRunUnifiedRunner.copyOneRoot repo_root artifacts_dir fs
              root).1
            (LiveRunUnifiedRunner.rootDestination artifacts_dir root ++
              rest) = some c)) ∧
    (∀ rest fs0, LiveRunUnifiedRunner.copyRootsLoop repo_root artifacts_dir
        fs0 (root :: rest) =
      ((LiveRunUnifiedRunner.copyRootsLoop repo_root artifacts_dir
          (LiveRunUnifiedRunner.copyOneRoot repo_root artifacts_dir fs0
            root).1 rest).1,
        if (LiveRunUnifiedRunner.copyOneRoot repo_root artifacts_dir fs0
            root).2 then
          root :: (LiveRunUnifiedRunner.copyRootsLoop repo_root
            artifacts_dir (LiveRunUnifiedRunner.copyOneRoot repo_root
              artifacts_dir fs0 root).1 rest).2
        else (LiveRunUnifiedRunner.copyRootsLoop repo_root artifacts_dir
          (LiveRunUnifiedRunner.copyOneRoot repo_root artifacts_dir fs0
            root).1 rest).2)) ∧
    (∀ content, LiveRunUnifiedRunner.file_sha256 hash content =
      hash content) ∧
    (∀ sod fs2, LiveRunUnifiedRunner.FSWF fs2 → ∀ p c, (p, c) ∈ fs2 →
      LiveRunUnifiedRunner.underDir (sod ++ ["artifacts"]) p = true →
      (LiveRunUnifiedRunner.listArtifacts hash sod fs2).count
        ⟨LiveRunUnifiedRunner.joinPath (p.drop sod.length), c.length,
          hash c⟩ = 1) := by
  refine ⟨?_, ?_, ?_, fun rest fs0 => rfl,
    LiveRunUnifiedRunner.file_sha256_eq hash, ?_⟩
  · intro h
    rw [LiveRunUnifiedRunner.copyOneRoot, if_pos h]
  · intro hfile
    have hex : LiveRunUnifiedRunner.fsExists fs
        (LiveRunUnifiedRunner.resolve_path repo_root root) = true := by
      rw [LiveRunUnifiedRunner.fsExists, hfile, Bool.true_or]
    rw [LiveRunUnifiedRunner.copyOneRoot]
    rw [if_neg (by rw [hex]; simp), if_pos hfile]
    refine ⟨rfl, ?_⟩
    obtain ⟨c, hc⟩ := LiveRunUnifiedRunner.fsIsFile_iff.mp hfile
    rw [hc]
    simpa [hc] using LiveRunUnifiedRunner.fsLookup_writeFile_self fs
      (LiveRunUnifiedRunner.rootDestination artifacts_dir root)
      ((LiveRunUnifiedRunner.fsLookup fs
        (LiveRunUnifiedRunner.resolve_path repo_root root)).getD [])
  · intro hnd hex hnotfile hsd hds
    rw [LiveRunUnifiedRunner.copyOneRoot]
    rw [if_neg (by rw [hex]; simp), if_neg (by rw [hnotfile]; simp)]
    refine ⟨rfl, ?_⟩
    intro rest c hlook
    apply LiveRunUnifiedRunner.copyTree_into_clean
    · split
      · exact LiveRunUnifiedRunner.removeTree_keys_nodup hnd
      · exact hnd
    · split
      · exact LiveRunUnifiedRunner.removeTree_clean
      · rename_i hnex
        exact LiveRunUnifiedRunner.not_exists_clean
          (Bool.not_eq_true _ ▸ Bool.of_not_eq_true hnex)
    · split
      · apply LiveRunUnifiedRunner.fsLookup_filter_of_kept _ hnd hlook
        simp only [Bool.not_eq_eq_eq_not, Bool.not_true,
          Bool.not_eq_true]
        rw [← Bool.not_eq_true]
        intro habs
        have hpre := List.isPrefixOf_iff_prefix.mp habs
        rcases List.prefix_or_prefix_of_prefix hpre
          (List.prefix_append (LiveRunUnifiedRunner.resolve_path repo_root
            root) rest) with hcase | hcase
        · exact hds hcase
        · exact hsd hcase
      · exact hlook
  · intro sod fs2 hwf p c hmem hunder
    have h := LiveRunUnifiedRunner.listArtifacts_count_one hash sod fs2 hwf
      p c hmem hunder
    rwa [LiveRunUnifiedRunner.file_sha256_eq] at h

theorem copy_surface_artifacts_per_root_witness :
    LiveRunUnifiedRunner.copyOneRoot ["repo"] ["out", "artifacts"] []
      "r" = ([], true) :=
  (copy_surface_artifacts_per_root (fun _ => "") ["repo"]
    ["out", "artifacts"] [] "r").1 (by decide)

namespace LiveRunUnifiedRunner

theorem stringDataInj {a b : String} (h : a.data = b.data) : a = b := by
  cases a; cases b; exact congrArg String.mk h

theorem underDir_drop_ne_nil {sod p : List String}
    (h : underDir (sod ++ ["artifacts"]) p = true) :
    p.drop sod.length ≠ [] := by
  rw [underDir, Bool.and_eq_true] at h
  have hpre := List.isPrefixOf_iff_prefix.mp h.1
  have hlen := hpre.length_le
  intro habs
  have h2 := congrArg List.length habs
  simp only [List.length_drop, List.length_nil] at h2
  simp only [List.length_append, List.length_cons, List.length_nil] at hlen
  omega

end LiveRunUnifiedRunner

/-- Claim C10: the artifacts list returned by the collector is produced
by walking the regular files below the destination tree in ascending
destination-path order — `sorted` over `Path` objects compares the
component tuples part-wise — and it is deterministic: the walk order is
pairwise ascending, the returned entries are exactly that walk's entries
in that order, and any permutation of the filesystem's file enumeration
(with distinct file paths) yields the identical artifacts list,
independent of copy order or directory-enumeration order. -/
theorem listArtifacts_ordering (hash : List Nat → String)
    (sod : List String) (fs : LiveRunUnifiedRunner.FS) :
    List.Pairwise
      (fun a b : List String × List Nat => strListLe a.1 b.1 = true)
      (List.insertionSort LiveRunUnifiedRunner.entryLe
        (fs.filter (fun e => LiveRunUnifiedRunner.underDir
          (sod ++ ["artifacts"]) e.1))) ∧
    LiveRunUnifiedRunner.listArtifacts hash sod fs =
      (List.insertionSort LiveRunUnifiedRunner.entryLe
        (fs.filter (fun e => LiveRunUnifiedRunner.underDir
          (sod ++ ["artifacts"]) e.1))).map
        (fun e =>
          { relative_path :=
              LiveRunUnifiedRunner.joinPath (e.1.drop sod.length),
            bytes := e.2.length,
            sha256 := LiveRunUnifiedRunner.file_sha256 hash e.2 }) ∧
    (∀ fs2, fs.Perm fs2 → (fs.map Prod.fst).Nodup →
      LiveRunUnifiedRunner.listArtifacts hash sod fs =
        LiveRunUnifiedRunner.listArtifacts hash sod fs2) := by
  refine ⟨List.sorted_insertionSort LiveRunUnifiedRunner.entryLe _, rfl, ?_⟩
  intro fs2 hperm hnd
  unfold LiveRunUnifiedRunner.listArtifacts
  dsimp only
  have hkey : List.insertionSort LiveRunUnifiedRunner.entryLe
      (fs.filter (fun e => LiveRunUnifiedRunner.underDir
        (sod ++ ["artifacts"]) e.1)) =
      List.insertionSort LiveRunUnifiedRunner.entryLe
      (fs2.filter (fun e => LiveRunUnifiedRunner.underDir
        (sod ++ ["artifacts"]) e.1)) := by
    apply sorted_perm_eq
    · exact (List.perm_insertionSort _ _).trans
        ((hperm.filter _).trans (List.perm_insertionSort _ _).symm)
    · exact List.sorted_insertionSort _ _
    · exact List.sorted_insertionSort _ _
    · intro a ha b hb hab hba
      have hafs := (List.mem_filter.mp
        ((List.perm_insertionSort LiveRunUnifiedRunner.entryLe
          _).mem_iff.mp ha)).1
      have hbfs := (List.mem_filter.mp
        ((List.perm_insertionSort LiveRunUnifiedRunner.entryLe
          _).mem_iff.mp hb)).1
      have hkey1 : a.1 = b.1 := strListLe_antisymm _ _ hab hba
      exact List.inj_on_of_nodup_map hnd hafs hbfs hkey1
  rw [hkey]

theorem listArtifacts_ordering_witness :
    LiveRunUnifiedRunner.listArtifacts (fun _ => "") ["out"]
      [(["out", "artifacts", "b"], [2]), (["out", "artifacts", "a"], [1])] =
    LiveRunUnifiedRunner.listArtifacts (fun _ => "") ["out"]
      [(["out", "artifacts", "a"], [1]), (["out", "artifacts", "b"], [2])] :=
  (listArtifacts_ordering (fun _ => "") ["out"]
    [(["out", "artifacts", "b"], [2]), (["out", "artifacts", "a"], [1])]).2.2
    [(["out", "artifacts", "a"], [1]), (["out", "artifacts", "b"], [2])]
    (by decide) (by decide)
